import Mathlib

/-!
Error slots of `test-snapd-posix-mq`.

A shallow embedding of `errslot.h` / `errslot.c`: the fixed pool of 32 error
slots, the index encoding, allocation (`errslot_make`), lookup (`errslot_at`),
release (`errslot_unref`), the convenience constructors and the printers
(`errslot_print` and the three domains), of `strlist_each` of `strlist.c` and
of `visit_open_flag` of `mq.c`, followed by theorems about them.

Modelling conventions.

* C `int` values (`es_value`, `es_lineno`, `es_cause`, slot indices) are `Int`.
  The only arithmetic on them is `-slot_index - 1`, evaluated for
  `0 <= slot_index < 32` or `-32 <= slot_index <= -1`, so no overflow arises.
* A `const char *` is `Option String` (`none` is `NULL`); the opaque
  `void *es_data` is the address it holds, a `Nat` with `0` for `NULL`.
* A `const struct errslot_domain *` is `Option errslot_domain`: the pointer is
  modelled by the immutable record it points to, `none` is `NULL`.
* A function pointer `esd_free` is `Option Nat` (the address of a release
  routine, `none` is `NULL`).  A call `esd_free(data)` is recorded as a
  `free_call`; the routine is code outside the pool and is taken not to touch
  `errslot_main`.
* The global `errslot_main[ERRSLOT_MAX]` is an explicit value of type `Pool`,
  passed to and returned by every operation.  A pointer into the array is the
  position `Fin ERRSLOT_MAX` it points at.
* `memcmp(slot, &empty, sizeof(struct errslot)) == 0` is equality with the
  record whose fields are all zero, and `memset(slot, 0, sizeof *slot)` stores
  that record (padding bytes are zero in static storage and after `memset`,
  and are never written otherwise).
* `abort()` is the result `none` of `errslot_make`.
* `errslot_unref` recurses along `es_cause` and need not terminate when the
  links form a cycle, so it takes a recursion budget; `none` means the budget
  was used up.
-/

namespace Errslot

/-- The `#define ERRSLOT_MAX 32` of `errslot.c`. -/
abbrev ERRSLOT_MAX : Nat := 32

/-- What an `esd_print` function pointer can point to: one of the three static
printers of `errslot.c`, or a function defined elsewhere. -/
inductive print_fn where
  | errno
  | plain
  | TODO
  | foreign (addr : Nat)
  deriving DecidableEq, Repr

/-- The `struct errslot_domain` of `errslot.h`. -/
structure errslot_domain where
  esd_free : Option Nat
  esd_print : Option print_fn
  deriving DecidableEq, Repr

/-- The `struct errslot` of `errslot.h`. -/
structure errslot where
  es_domain : Option errslot_domain
  es_value : Int
  es_msg : Option String
  es_function : Option String
  es_filename : Option String
  es_lineno : Int
  es_cause : Int
  es_data : Nat
  deriving DecidableEq, Repr

/-- The `struct errslot_info` of `errslot.h`: a pointer into the pool and the
encoded index. -/
structure errslot_info where
  es_ptr : Fin ERRSLOT_MAX
  es_index : Int
  deriving DecidableEq, Repr

/-- The local `struct errslot empty = {0}` of `errslot_make`. -/
def empty : errslot :=
  { es_domain := none, es_value := 0, es_msg := none, es_function := none,
    es_filename := none, es_lineno := 0, es_cause := 0, es_data := 0 }

/-- The contents of `static struct errslot errslot_main[ERRSLOT_MAX]`. -/
abbrev Pool := Fin ERRSLOT_MAX → errslot

/-- The pool at program start: static storage is zero-initialised. -/
def errslot_main_init : Pool := fun _ => empty

/-- `errslot_domain_errno()`: only `.esd_print` is initialised. -/
def errslot_domain_errno : errslot_domain :=
  { esd_free := none, esd_print := some print_fn.errno }

/-- `errslot_domain_plain()`: only `.esd_print` is initialised. -/
def errslot_domain_plain : errslot_domain :=
  { esd_free := none, esd_print := some print_fn.plain }

/-- `errslot_domain_TODO()`: only `.esd_print` is initialised. -/
def errslot_domain_TODO : errslot_domain :=
  { esd_free := none, esd_print := some print_fn.TODO }

/-- The `for` loop of `errslot_make`, entered with loop variable `slot_index`.
The first argument bounds the number of iterations; the loop is started with
`ERRSLOT_MAX + 1`, so that it is the test `slot_index < ERRSLOT_MAX` that ends
it and falls through to `abort()` (`none`). -/
def errslot_make_loop (pool : Pool) (domain : errslot_domain) :
    Nat → Nat → Option (Pool × errslot_info)
  | 0, _ => none
  | n + 1, slot_index =>
    if h : slot_index < ERRSLOT_MAX then
      if pool ⟨slot_index, h⟩ = empty then
        some (Function.update pool ⟨slot_index, h⟩
                { pool ⟨slot_index, h⟩ with es_domain := some domain },
              { es_ptr := ⟨slot_index, h⟩, es_index := -(slot_index : Int) - 1 })
      else
        errslot_make_loop pool domain n (slot_index + 1)
    else
      none

/-- `errslot_make`: a `NULL` domain is replaced by `errslot_domain_TODO()`,
then the pool is scanned from position 0. -/
def errslot_make (pool : Pool) (domain : Option errslot_domain) :
    Option (Pool × errslot_info) :=
  let domain := match domain with
    | none => errslot_domain_TODO
    | some d => d
  errslot_make_loop pool domain (ERRSLOT_MAX + 1) 0

/-- `errslot_at`: the pointer `&errslot_main[-slot_index - 1]` when
`slot_index < 0 && slot_index > -ERRSLOT_MAX - 1`, else `NULL`. -/
def errslot_at (slot_index : Int) : Option (Fin ERRSLOT_MAX) :=
  if h : slot_index < 0 ∧ slot_index > -(ERRSLOT_MAX : Int) - 1 then
    some ⟨(-slot_index - 1).toNat, by have := h.1; have := h.2; simp only [ERRSLOT_MAX] at *; omega⟩
  else
    none

/-- One recorded call `esd_free(data)`. -/
structure free_call where
  routine : Nat
  data : Nat
  deriving DecidableEq, Repr

/-- The first statement of `errslot_unref` after the lookup: the call
`slot->es_domain->esd_free(slot->es_data)`, made only when `es_data`,
`es_domain` and `esd_free` are all non-`NULL`. -/
def free_attached (slot : errslot) : List free_call :=
  if slot.es_data ≠ 0 then
    match slot.es_domain with
    | none => []
    | some d =>
      match d.esd_free with
      | none => []
      | some f => [{ routine := f, data := slot.es_data }]
  else
    []

/-- `errslot_unref`, returning the pool afterwards and the `esd_free` calls
made, in order.  The first argument is the recursion budget. -/
def errslot_unref : Nat → Pool → Int → Option (Pool × List free_call)
  | 0, _, _ => none
  | fuel + 1, pool, idx =>
    match errslot_at idx with
    | none => some (pool, [])
    | some slot =>
      let freed := free_attached (pool slot)
      if (pool slot).es_cause ≠ 0 then
        match errslot_unref fuel pool (pool slot).es_cause with
        | none => none
        | some (pool1, freed1) => some (Function.update pool1 slot empty, freed ++ freed1)
      else
        some (Function.update pool slot empty, freed)

/-- `errslot_make_inline` of `errslot.h`: allocate, then store the six given
fields through `info.es_ptr`; the result is `info.es_index`. -/
def errslot_make_inline (pool : Pool) (domain : Option errslot_domain) (value : Int)
    (msg : Option String) (cause : Int) (function filename : Option String) (lineno : Int) :
    Option (Pool × Int) :=
  match errslot_make pool domain with
  | none => none
  | some (pool1, info) =>
    some (Function.update pool1 info.es_ptr
            { pool1 info.es_ptr with
              es_value := value, es_msg := msg, es_cause := cause,
              es_function := function, es_filename := filename, es_lineno := lineno },
          info.es_index)

/-- The slot a lookup result points at, read from a given pool. -/
def slot_at (pool : Pool) (idx : Int) : Option errslot :=
  (errslot_at idx).map pool

/-- `cause_chain pool idx chain`: following `es_cause` from `idx` in `pool`,
`chain` is the list of the indices met that resolve to a slot, in order, up to
the first index that does not resolve (`0` or any other index out of range).
Such a finite list exists exactly when the links from `idx` do not cycle. -/
def cause_chain (pool : Pool) : Int → List Int → Bool
  | idx, [] => (errslot_at idx).isNone
  | idx, a :: rest =>
    match errslot_at idx with
    | none => false
    | some slot => idx == a && cause_chain pool (pool slot).es_cause rest

/-- The pool in which the slots of the listed indices are zeroed. -/
def zeroed (pool : Pool) : List Int → Pool
  | [] => pool
  | i :: rest =>
    match errslot_at i with
    | none => zeroed pool rest
    | some slot => Function.update (zeroed pool rest) slot empty

/-- The calls made along a chain: each slot's own call, head first. -/
def chain_freed (pool : Pool) : List Int → List free_call
  | [] => []
  | i :: rest =>
    (match errslot_at i with
      | none => []
      | some slot => free_attached (pool slot)) ++ chain_freed pool rest

/-- What releasing one slot owes to its domain, in the words of the spec: the
attached data is handed to the release behaviour when the domain, the release
behaviour and the data are all present. -/
def owed (s : errslot) : Option free_call :=
  match s.es_domain with
  | none => none
  | some d =>
    match d.esd_free with
    | none => none
    | some f => if s.es_data = 0 then none else some { routine := f, data := s.es_data }

/-- A construction request: `errslot_make` or `errslot_make_inline` with its
arguments. -/
inductive construction where
  | make (domain : Option errslot_domain)
  | make_inline (domain : Option errslot_domain) (value : Int) (msg : Option String)
      (cause : Int) (function filename : Option String) (lineno : Int)

/-- Run one construction and keep the index it returns. -/
def construct (pool : Pool) : construction → Option (Pool × Int)
  | construction.make domain =>
    match errslot_make pool domain with
    | none => none
    | some (pool1, info) => some (pool1, info.es_index)
  | construction.make_inline domain value msg cause function filename lineno =>
    errslot_make_inline pool domain value msg cause function filename lineno

/-- Run constructions one after the other with no release in between,
collecting the returned indices; `none` as soon as one aborts. -/
def construct_all : Pool → List construction → Option (Pool × List Int)
  | pool, [] => some (pool, [])
  | pool, c :: cs =>
    match construct pool c with
    | none => none
    | some (pool1, i) =>
      match construct_all pool1 cs with
      | none => none
      | some (pool2, is) => some (pool2, i :: is)

/-- A pool holding a two-slot chain: the plain-message error "outer" at
position 0 (index -1) whose cause is the plain-message error "inner" at
position 1 (index -2). -/
def pool_outer_inner : Pool := fun p =>
  if p = 0 then
    { empty with es_domain := some errslot_domain_plain, es_msg := some "outer", es_cause := -2 }
  else if p = 1 then
    { empty with es_domain := some errslot_domain_plain, es_msg := some "inner" }
  else empty

/-- A pool holding a chain with attached data: position 0 (index -1) carries
data 100 in a domain whose release routine is 7, its cause at position 2
(index -3) carries data 200 in a domain whose release routine is 8. -/
def pool_with_data : Pool := fun p =>
  if p = 0 then
    { empty with es_domain := some { esd_free := some 7, esd_print := none },
                 es_cause := -3, es_data := 100 }
  else if p = 2 then
    { empty with es_domain := some { esd_free := some 8, esd_print := none }, es_data := 200 }
  else empty

/-- A pool in which every slot is in use, each by a plain-message error
without cause. -/
def pool_full : Pool := fun _ => { empty with es_domain := some errslot_domain_plain }

/-! ### Printing

Streams and the C library.  A `FILE *` is the number of the stream it
designates.  Every write is taken to succeed; what a print function does is
the list of writes it makes, in order, together with the `int` it returns.
A `String` stands for a C string, one `Char` per `char`.

* `fprintf` returns the number of characters it wrote.
* `fputs` returns "a nonnegative value" in C; which one is the C library's
  choice, so it is a field of `host` (`1` in glibc, `0` in musl).
* `strerror` is the C library's table, a field of `host`.
* `%s` given `NULL` is rendered `(null)`, as glibc does.
* `depth` is `0` at the entry `errslot_print` and only ever incremented, so it
  is a `Nat`.
* The printers recurse along `es_cause`; as for `errslot_unref`, the recursion
  budget is explicit and `none` means it was used up.
-/

/-- A `FILE *`. -/
abbrev FILE := Nat

/-- The standard output stream. -/
def stdout : FILE := 1

/-- The standard error stream, which `errslot_indent` names directly. -/
def stderr : FILE := 2

/-- One write of `text` to `stream`. -/
structure write where
  stream : FILE
  text : String
  deriving DecidableEq, Repr

/-- What a print function did: its writes in order, and its return value. -/
abbrev printed := List write × Int

/-- The code the printers call that is not part of the repository: the C
library's `strerror`, the value its `fputs` returns on success, and the print
functions of domains defined elsewhere (taken to read the pool only). -/
structure host where
  strerror : Int → String
  fputs_result : String → Int
  foreign_print : Nat → Pool → FILE → errslot → Nat → printed

/-- The statement `n += call` where nothing was written before: the writes
follow one another and the return values add up. -/
def seq (a b : printed) : printed := (a.1 ++ b.1, a.2 + b.2)

/-- `fputs(s, f)`. -/
def fputs (H : host) (s : String) (f : FILE) : printed :=
  ([{ stream := f, text := s }], H.fputs_result s)

/-- `fprintf(f, ...)` with its format already expanded to `text`. -/
def fprintf (f : FILE) (text : String) : printed :=
  ([{ stream := f, text := text }], (text.length : Int))

/-- The conversion `%s`. -/
def fmt_s : Option String → String
  | none => "(null)"
  | some s => s

/-- The conversion `%d`. -/
def fmt_d (v : Int) : String := toString v

/-- `errslot_indent(depth)`: the loop `for (i = 0; i <= depth; ++i)` writes two
spaces to `stderr` each time round and adds up what `fprintf` returns. -/
def errslot_indent : Nat → printed
  | 0 => seq ([], 0) (fprintf stderr "  ")
  | depth + 1 => seq (errslot_indent depth) (fprintf stderr "  ")

/-- `errslot_print_errno`; `print_depth` is `errslot_print_depth` with the
stream already given. -/
def errslot_print_errno (H : host) (print_depth : Int → Nat → Option printed) (f : FILE)
    (slot : errslot) (depth : Nat) : Option printed :=
  let n0 : printed := ([], 0)
  let n1 := match slot.es_msg with
    | some msg => seq (seq n0 (fputs H msg f)) (fputs H ": " f)
    | none => n0
  let n2 := seq n1 (fprintf f (H.strerror slot.es_value ++ " (" ++ fmt_d slot.es_value ++ ")"))
  let n3 := if slot.es_cause ≠ 0 then
      match print_depth slot.es_cause (depth + 1) with
      | none => none
      | some r => some (seq (seq n2 (fputs H ": " f)) r)
    else some n2
  match n3 with
  | none => none
  | some n4 => some (if depth = 0 then seq n4 (fputs H "\n" f) else n4)

/-- `errslot_print_plain`. -/
def errslot_print_plain (H : host) (print_depth : Int → Nat → Option printed) (f : FILE)
    (slot : errslot) (depth : Nat) : Option printed :=
  let n0 : printed := ([], 0)
  let n1 := seq n0 (fputs H (match slot.es_msg with
    | some msg => msg
    | none => "???") f)
  let n2 := if slot.es_cause ≠ 0 then
      match print_depth slot.es_cause (depth + 1) with
      | none => none
      | some r => some (seq (seq n1 (fputs H ": " f)) r)
    else some n1
  match n2 with
  | none => none
  | some n3 => some (if depth = 0 then seq n3 (fputs H "\n" f) else n3)

/-- `errslot_print_TODO` (its `slot == NULL` guard never fires: the only caller
passes a slot). -/
def errslot_print_TODO (print_depth : Int → Nat → Option printed) (f : FILE)
    (slot : errslot) (depth : Nat) : Option printed :=
  let n0 : printed := ([], 0)
  let n1 := if depth = 0 then seq n0 (fprintf f "An error had occured:\n") else n0
  let n2 := match slot.es_msg with
    | some msg => seq (seq n1 (errslot_indent depth)) (fprintf f ("Message: " ++ msg ++ "\n"))
    | none => n1
  let n3 := if slot.es_filename ≠ none ∨ slot.es_lineno ≠ 0 then
      seq (seq n2 (errslot_indent depth))
        (fprintf f ("Source code location: " ++ fmt_s slot.es_filename ++ ":" ++
          fmt_d slot.es_lineno ++ "\n"))
    else n2
  let n4 := match slot.es_function with
    | some fn => seq (seq n3 (errslot_indent depth)) (fprintf f ("Function name: " ++ fn ++ "\n"))
    | none => n3
  if slot.es_cause ≠ 0 then
    match print_depth slot.es_cause (depth + 1) with
    | none => none
    | some r =>
      some (seq (seq (seq n4 (errslot_indent depth)) (fprintf f "Caused by error:\n")) r)
  else some n4

/-- The call `slot->es_domain->esd_print(f, slot, depth)` through the function
pointer `fn`. -/
def esd_print_call (H : host) (pool : Pool) (print_depth : Int → Nat → Option printed)
    (f : FILE) (fn : print_fn) (slot : errslot) (depth : Nat) : Option printed :=
  match fn with
  | print_fn.errno => errslot_print_errno H print_depth f slot depth
  | print_fn.plain => errslot_print_plain H print_depth f slot depth
  | print_fn.TODO => errslot_print_TODO print_depth f slot depth
  | print_fn.foreign addr => some (H.foreign_print addr pool f slot depth)

/-- `errslot_print_depth`; the argument before `idx` is the recursion budget. -/
def errslot_print_depth (H : host) (pool : Pool) (f : FILE) :
    Nat → Int → Nat → Option printed
  | 0, _, _ => none
  | fuel + 1, idx, depth =>
    match errslot_at idx with
    | none => some ([], 0)
    | some slot =>
      match (pool slot).es_domain with
      | none => some ([], 0)
      | some d =>
        match d.esd_print with
        | none => some ([], 0)
        | some fn =>
          esd_print_call H pool (errslot_print_depth H pool f fuel) f fn (pool slot) depth

/-- `errslot_print`. -/
def errslot_print (fuel : Nat) (H : host) (pool : Pool) (f : FILE) (idx : Int) :
    Option printed :=
  errslot_print_depth H pool f fuel idx 0

/-- The text a list of writes puts on stream `f`. -/
def written (f : FILE) : List write → String
  | [] => ""
  | w :: ws => if w.stream = f then w.text ++ written f ws else written f ws

/-- The number of characters a list of writes puts out, on all streams. -/
def characters : List write → Int
  | [] => 0
  | w :: ws => (w.text.length : Int) + characters ws

/-- A host with glibc's conventions: `fputs` returns 1 on success; of the
`strerror` table only the entry of `ENOENT` (2) is spelled out, other codes
get glibc's text for unknown codes.  No foreign print function writes. -/
def host_glibc : host :=
  { strerror := fun v => if v = 2 then "No such file or directory"
                         else "Unknown error " ++ fmt_d v,
    fputs_result := fun _ => 1,
    foreign_print := fun _ _ _ _ _ => ([], 0) }

/-- The convenience macros of `errslot.h`.  `__FUNCTION__`, `__FILE__` and
`__LINE__` of the place of use are the last three arguments; `errno` is the
ambient error code at the call. -/
def errslot_plain (pool : Pool) (msg : Option String) (function filename : String)
    (lineno : Int) : Option (Pool × Int) :=
  errslot_make_inline pool (some errslot_domain_plain) 0 msg 0 (some function) (some filename)
    lineno

/-- The macro `errslot_plain_cause`. -/
def errslot_plain_cause (pool : Pool) (msg : Option String) (cause : Int)
    (function filename : String) (lineno : Int) : Option (Pool × Int) :=
  errslot_make_inline pool (some errslot_domain_plain) 0 msg cause (some function)
    (some filename) lineno

/-- The macro `errslot_errno`. -/
def errslot_errno (pool : Pool) (errno : Int) (msg : Option String)
    (function filename : String) (lineno : Int) : Option (Pool × Int) :=
  errslot_make_inline pool (some errslot_domain_errno) errno msg 0 (some function)
    (some filename) lineno

/-- The macro `errslot_TODO`. -/
def errslot_TODO (pool : Pool) (msg : Option String) (function filename : String)
    (lineno : Int) : Option (Pool × Int) :=
  errslot_make_inline pool (some errslot_domain_TODO) 0 msg 0 (some function) (some filename)
    lineno

/-- The macro `errslot_TODO_cause`. -/
def errslot_TODO_cause (pool : Pool) (msg : Option String) (cause : Int)
    (function filename : String) (lineno : Int) : Option (Pool × Int) :=
  errslot_make_inline pool (some errslot_domain_TODO) 0 msg cause (some function)
    (some filename) lineno

/-- A pool holding the plain-message error "bad flag" without cause at
position 0 (index -1). -/
def pool_bad_flag : Pool := fun p =>
  if p = 0 then { empty with es_domain := some errslot_domain_plain, es_msg := some "bad flag" }
  else empty

/-- A pool holding the OS error "open failed" with code 2 at position 0. -/
def pool_open_failed : Pool := fun p =>
  if p = 0 then
    { empty with es_domain := some errslot_domain_errno, es_value := 2,
                 es_msg := some "open failed" }
  else empty

/-- A pool holding the default-domain error "todo" with no location fields at
position 0. -/
def pool_todo : Pool := fun p =>
  if p = 0 then { empty with es_domain := some errslot_domain_TODO, es_msg := some "todo" }
  else empty

/-- `cause_chain_to_zero pool idx chain`: `chain` is `S0, ..., Sn` with
`S0 = idx`, every `Sk` resolves to a slot, the cause of `Sk` is `Sk+1`, and the
cause of `Sn` is 0 (for the empty list: `idx` is 0). -/
def cause_chain_to_zero (pool : Pool) : Int → List Int → Bool
  | idx, [] => idx == 0
  | idx, a :: rest =>
    match errslot_at idx with
    | none => false
    | some slot => idx == a && cause_chain_to_zero pool (pool slot).es_cause rest

/-- The message of the slot at an index as the plain-message domain shows it:
the message, or the placeholder when there is none. -/
def shown_msg (pool : Pool) (idx : Int) : String :=
  match slot_at pool idx with
  | none => "???"
  | some slot =>
    match slot.es_msg with
    | some msg => msg
    | none => "???"

/-- The texts `m0, m1, ..., mn` joined as `m0: m1: ...: mn`. -/
def chain_inline : List String → String
  | [] => ""
  | [m] => m
  | m :: m1 :: rest => m ++ ": " ++ chain_inline (m1 :: rest)

/-- What the OS-error domain shows of one slot, before any cause:
`message: <platform error text> (<code>)`, or the text and code alone when
there is no message. -/
def errno_head (H : host) (slot : errslot) : String :=
  match slot.es_msg with
  | some msg => msg ++ ": " ++ H.strerror slot.es_value ++ " (" ++ fmt_d slot.es_value ++ ")"
  | none => H.strerror slot.es_value ++ " (" ++ fmt_d slot.es_value ++ ")"

/-! The printers once more, this time as code running on the pool: each
function receives the pool and the pointer `slot` into it, reads the slot's
fields from the pool, and returns the pool it leaves behind together with what
it printed.  A print function defined outside the repository may write the
pool; what it leaves is given by a parameter `F`. -/

/-- `errslot_print_errno` running on the pool.  `print_depth` is
`errslot_print_depth` running on the pool. -/
def errslot_print_errno_run (H : host)
    (print_depth : Pool → Int → Nat → Option (Pool × printed)) (f : FILE) (pool : Pool)
    (slot : Fin ERRSLOT_MAX) (depth : Nat) : Option (Pool × printed) :=
  let n0 : printed := ([], 0)
  let n1 := match (pool slot).es_msg with
    | some msg => seq (seq n0 (fputs H msg f)) (fputs H ": " f)
    | none => n0
  let n2 := seq n1
    (fprintf f (H.strerror (pool slot).es_value ++ " (" ++ fmt_d (pool slot).es_value ++ ")"))
  let n3 := if (pool slot).es_cause ≠ 0 then
      match print_depth pool (pool slot).es_cause (depth + 1) with
      | none => none
      | some (pool1, r) => some (pool1, seq (seq n2 (fputs H ": " f)) r)
    else some (pool, n2)
  match n3 with
  | none => none
  | some (pool1, n4) => some (pool1, if depth = 0 then seq n4 (fputs H "\n" f) else n4)

/-- `errslot_print_plain` running on the pool. -/
def errslot_print_plain_run (H : host)
    (print_depth : Pool → Int → Nat → Option (Pool × printed)) (f : FILE) (pool : Pool)
    (slot : Fin ERRSLOT_MAX) (depth : Nat) : Option (Pool × printed) :=
  let n0 : printed := ([], 0)
  let n1 := seq n0 (fputs H (match (pool slot).es_msg with
    | some msg => msg
    | none => "???") f)
  let n2 := if (pool slot).es_cause ≠ 0 then
      match print_depth pool (pool slot).es_cause (depth + 1) with
      | none => none
      | some (pool1, r) => some (pool1, seq (seq n1 (fputs H ": " f)) r)
    else some (pool, n1)
  match n2 with
  | none => none
  | some (pool1, n3) => some (pool1, if depth = 0 then seq n3 (fputs H "\n" f) else n3)

/-- `errslot_print_TODO` running on the pool. -/
def errslot_print_TODO_run (print_depth : Pool → Int → Nat → Option (Pool × printed))
    (f : FILE) (pool : Pool) (slot : Fin ERRSLOT_MAX) (depth : Nat) :
    Option (Pool × printed) :=
  let n0 : printed := ([], 0)
  let n1 := if depth = 0 then seq n0 (fprintf f "An error had occured:\n") else n0
  let n2 := match (pool slot).es_msg with
    | some msg => seq (seq n1 (errslot_indent depth)) (fprintf f ("Message: " ++ msg ++ "\n"))
    | none => n1
  let n3 := if (pool slot).es_filename ≠ none ∨ (pool slot).es_lineno ≠ 0 then
      seq (seq n2 (errslot_indent depth))
        (fprintf f ("Source code location: " ++ fmt_s (pool slot).es_filename ++ ":" ++
          fmt_d (pool slot).es_lineno ++ "\n"))
    else n2
  let n4 := match (pool slot).es_function with
    | some fn => seq (seq n3 (errslot_indent depth)) (fprintf f ("Function name: " ++ fn ++ "\n"))
    | none => n3
  if (pool slot).es_cause ≠ 0 then
    match print_depth pool (pool slot).es_cause (depth + 1) with
    | none => none
    | some (pool1, r) =>
      some (pool1,
        seq (seq (seq n4 (errslot_indent depth)) (fprintf f "Caused by error:\n")) r)
  else some (pool, n4)

/-- The call through the function pointer `fn`, running on the pool.  A print
function defined elsewhere leaves the pool `F addr pool f slot depth`. -/
def esd_print_call_run (H : host) (F : Nat → Pool → FILE → Fin ERRSLOT_MAX → Nat → Pool)
    (print_depth : Pool → Int → Nat → Option (Pool × printed)) (f : FILE) (fn : print_fn)
    (pool : Pool) (slot : Fin ERRSLOT_MAX) (depth : Nat) : Option (Pool × printed) :=
  match fn with
  | print_fn.errno => errslot_print_errno_run H print_depth f pool slot depth
  | print_fn.plain => errslot_print_plain_run H print_depth f pool slot depth
  | print_fn.TODO => errslot_print_TODO_run print_depth f pool slot depth
  | print_fn.foreign addr =>
    some (F addr pool f slot depth, H.foreign_print addr pool f (pool slot) depth)

/-- `errslot_print_depth` running on the pool; the first `Nat` is the recursion
budget. -/
def errslot_print_depth_run (H : host) (F : Nat → Pool → FILE → Fin ERRSLOT_MAX → Nat → Pool)
    (f : FILE) : Nat → Pool → Int → Nat → Option (Pool × printed)
  | 0, _, _, _ => none
  | fuel + 1, pool, idx, depth =>
    match errslot_at idx with
    | none => some (pool, ([], 0))
    | some slot =>
      match (pool slot).es_domain with
      | none => some (pool, ([], 0))
      | some d =>
        match d.esd_print with
        | none => some (pool, ([], 0))
        | some fn =>
          esd_print_call_run H F (errslot_print_depth_run H F f fuel) f fn pool slot depth

/-- `errslot_print` running on the pool. -/
def errslot_print_run (fuel : Nat) (H : host)
    (F : Nat → Pool → FILE → Fin ERRSLOT_MAX → Nat → Pool) (pool : Pool) (f : FILE)
    (idx : Int) : Option (Pool × printed) :=
  errslot_print_depth_run H F f fuel pool idx 0

/-- A pool holding the OS error "open failed" at position 0 (index -1) whose
cause is the default-domain error "todo" at position 1 (index -2), itself
caused by the plain-message error "inner" at position 2 (index -3). -/
def pool_three_domains : Pool := fun p =>
  if p = 0 then
    { empty with es_domain := some errslot_domain_errno, es_value := 2,
                 es_msg := some "open failed", es_cause := -2 }
  else if p = 1 then
    { empty with es_domain := some errslot_domain_TODO, es_msg := some "todo", es_cause := -3 }
  else if p = 2 then
    { empty with es_domain := some errslot_domain_plain, es_msg := some "inner" }
  else empty

/-- A pool holding one plain-message error at position 0 (index -1) whose
cause is its own index. -/
def pool_self_cause : Pool := fun p =>
  if p = 0 then
    { empty with es_domain := some errslot_domain_plain, es_msg := some "loop",
                 es_function := some "main", es_filename := some "mq.c", es_lineno := 1,
                 es_cause := -1 }
  else empty

/-- What the OS-error and plain-message domains show of the slot at an index,
before any cause: `errno_head` for an OS-error slot, the message or the
placeholder for a plain-message slot; nothing for any other slot. -/
def inline_head (H : host) (pool : Pool) (idx : Int) : String :=
  match slot_at pool idx with
  | none => ""
  | some slot =>
    match slot.es_domain with
    | none => ""
    | some d =>
      match d.esd_print with
      | some print_fn.errno => errno_head H slot
      | some print_fn.plain =>
        (match slot.es_msg with
          | some msg => msg
          | none => "???")
      | _ => ""

/-- A pool holding the OS error "open failed" with code 2 at position 0
(index -1), whose cause is the default-domain error "inner" at position 1
(index -2). -/
def pool_errno_todo_cause : Pool := fun p =>
  if p = 0 then
    { empty with es_domain := some errslot_domain_errno, es_value := 2,
                 es_msg := some "open failed", es_cause := -2 }
  else if p = 1 then
    { empty with es_domain := some errslot_domain_TODO, es_msg := some "inner" }
  else empty

/-- A pool holding the OS error "open failed" with code 2 at position 0
(index -1), whose cause is the plain-message error "inner" at position 1
(index -2). -/
def pool_errno_plain_cause : Pool := fun p =>
  if p = 0 then
    { empty with es_domain := some errslot_domain_errno, es_value := 2,
                 es_msg := some "open failed", es_cause := -2 }
  else if p = 1 then
    { empty with es_domain := some errslot_domain_plain, es_msg := some "inner" }
  else empty

/-- Every index of the list resolves to a slot in use (a slot that is not
all-zero). -/
def live_chain (pool : Pool) : List Int → Bool
  | [] => true
  | i :: rest =>
    (match errslot_at i with
      | none => false
      | some slot => decide (pool slot ≠ empty)) && live_chain pool rest

/-- The discipline on the cause argument of a constructor: the cause is 0, or
it is the index at the head of a chain of slots in use that ends with cause 0
(the empty chain stands for cause 0). -/
def cause_in_use (pool : Pool) (cause : Int) : Prop :=
  ∃ chain, cause_chain_to_zero pool cause chain = true ∧ live_chain pool chain = true

/-- The pool states produced from the empty pool by `errslot_make`, by
`errslot_make_inline` (hence by each convenience macro) called with a cause
that is 0 or heads a chain of slots in use, and by `errslot_unref`. -/
inductive reachable : Pool → Prop
  | init : reachable errslot_main_init
  | make (pool : Pool) (domain : Option errslot_domain) (pool1 : Pool) (info : errslot_info) :
      reachable pool → errslot_make pool domain = some (pool1, info) → reachable pool1
  | make_inline (pool : Pool) (domain : Option errslot_domain) (value : Int)
      (msg : Option String) (cause : Int) (function filename : Option String) (lineno : Int)
      (pool1 : Pool) (idx : Int) :
      reachable pool → cause_in_use pool cause →
      errslot_make_inline pool domain value msg cause function filename lineno =
        some (pool1, idx) →
      reachable pool1
  | unref (pool : Pool) (fuel : Nat) (idx : Int) (pool1 : Pool) (freed : List free_call) :
      reachable pool → errslot_unref fuel pool idx = some (pool1, freed) → reachable pool1

/-- From every slot the cause links lead to index 0 in finitely many steps. -/
def chains_end_at_zero (pool : Pool) : Prop :=
  ∀ p : Fin ERRSLOT_MAX, ∃ chain, cause_chain_to_zero pool (-((p : Nat) : Int) - 1) chain = true

/-- The plain-message error "inner" without cause, as `errslot_make_inline`
leaves it in a free slot. -/
def slot_inner : errslot :=
  { empty with es_domain := some errslot_domain_plain, es_msg := some "inner" }

/-- The plain-message error "outer" whose cause is index -1. -/
def slot_outer : errslot :=
  { empty with es_domain := some errslot_domain_plain, es_msg := some "outer", es_cause := -1 }

/-- The pool after constructing "inner" (index -1) and then "outer" (index -2)
with cause -1, starting from the empty pool. -/
def pool_inner_outer : Pool :=
  Function.update (Function.update errslot_main_init 0 slot_inner) 1 slot_outer

end Errslot

/-! ### `strlist.c`

A NUL-terminated C string is the `List Char` of its characters before the
terminator, so a well-formed one does not contain the character `'\0'`; a
pointer into it is the list of the characters from that place on, and `*curr`
is the head of that list, or `'\0'` when the list is empty.  A `NULL` list is
`none`.  The callback `func(p, item, item_len)` works on the state behind `p`
and returns an `int`: it is a function from the state, the item pointer and the
length to the new state and the value returned.
-/

namespace Strlist

/-- `strchr(s, c)`: the offset of the first `c` in `s`, the offset of the
terminator when `c` is `'\0'`, `none` (a null pointer) when `c` does not
occur. -/
def strchr : List Char → Char → Option Nat
  | [], c => if c = '\x00' then some 0 else none
  | x :: xs, c =>
    if x = c then some 0
    else
      match strchr xs c with
      | none => none
      | some k => some (k + 1)

/-- The `while` loop of `strlist_each`, entered with pointer `curr` and callback
state `p`.  The first argument is the budget of iterations; `none` means it was
used up, and is also the result of the one step that leaves the string: with
`sep` equal to `'\0'` the statement `curr++` moves past the terminator. -/
def strlist_each_loop {σ : Type} (sep : Char) (func : σ → List Char → Nat → σ × Int) :
    Nat → σ → List Char → Option (σ × Int)
  | 0, _, _ => none
  | fuel + 1, p, curr =>
    match curr with
    | [] => some (p, 0)
    | _ :: _ =>
      let next : Nat := match strchr curr sep with
        | some k => k
        | none =>
          match strchr curr '\x00' with
          | some k => k
          | none => 0
      let r := func p curr next
      if r.2 < 0 then some r
      else
        match curr.drop next with
        | [] => if sep = '\x00' then none else strlist_each_loop sep func fuel r.1 []
        | c :: rest =>
          if c = sep then strlist_each_loop sep func fuel r.1 rest
          else strlist_each_loop sep func fuel r.1 (c :: rest)

/-- `strlist_each(list, sep, func, p)`: the loop is not entered for a `NULL`
list. -/
def strlist_each {σ : Type} (fuel : Nat) (list : Option (List Char)) (sep : Char)
    (func : σ → List Char → Nat → σ × Int) (p : σ) : Option (σ × Int) :=
  match list with
  | none => some (p, 0)
  | some curr => strlist_each_loop sep func fuel p curr

/-- The fields obtained by splitting a string at each occurrence of `sep`. -/
def split_fields (sep : Char) : List Char → List (List Char)
  | [] => [[]]
  | c :: cs =>
    if c = sep then [] :: split_fields sep cs
    else
      match split_fields sep cs with
      | [] => [[c]]
      | f :: fs => (c :: f) :: fs

/-- The fields without a final empty one. -/
def drop_final_empty : List (List Char) → List (List Char)
  | [] => []
  | [f] => if f = [] then [] else [f]
  | f :: g :: fs => f :: drop_final_empty (g :: fs)

/-- Each field with its start in the string `curr` and its length: a field
starts where the previous one and its separator end. -/
def with_starts (curr : List Char) : List (List Char) → List (List Char × Nat)
  | [] => []
  | f :: fs => (curr, f.length) :: with_starts (curr.drop (f.length + 1)) fs

/-- The fields the spec has visited, in order, as (start, length). -/
def visited_fields (sep : Char) (list : List Char) : List (List Char × Nat) :=
  with_starts list (drop_final_empty (split_fields sep list))

/-- A left-to-right fold with early exit: the callback is applied to each
field in turn; the first result below 0 ends the fold and is returned; when
there is none the result is 0. -/
def fold_until_negative {σ : Type} (func : σ → List Char → Nat → σ × Int) :
    σ → List (List Char × Nat) → σ × Int
  | p, [] => (p, 0)
  | p, (item, item_len) :: rest =>
    if (func p item item_len).2 < 0 then func p item item_len
    else fold_until_negative func (func p item item_len).1 rest

/-- A callback that records its calls as (field text, length) and fails with
-7 on the field `x`. -/
def record_call (p : List (List Char × Nat)) (item : List Char) (item_len : Nat) :
    List (List Char × Nat) × Int :=
  (p ++ [(item.take item_len, item_len)], if item.take item_len = ['x'] then -7 else 0)

end Strlist

/-! ### `mq.c`: `visit_open_flag`

The flag word `*flag` is the bit pattern of the `int`, a `Nat` below `2^32`.
The `O_*` constants are those of `<fcntl.h>` on Linux.  The item is a pointer
into the flag list: the characters from the start of the item to the end of
the list, of which the first `item_len` are the item.
-/

namespace Mq

/-- `strncmp(s1, s2, n)`: compares at most `n` characters and stops at the
first difference or at a terminator; the sign of the result is that of the
difference of the first differing characters (a terminator counts as 0). -/
def strncmp : List Char → List Char → Nat → Int
  | _, _, 0 => 0
  | [], [], _ + 1 => 0
  | [], c2 :: _, _ + 1 => 0 - (c2.toNat : Int)
  | c1 :: _, [], _ + 1 => (c1.toNat : Int)
  | c1 :: r1, c2 :: r2, n + 1 =>
    if c1 = c2 then strncmp r1 r2 n else (c1.toNat : Int) - (c2.toNat : Int)

/-- `O_RDONLY` of `<fcntl.h>`. -/
def O_RDONLY : Nat := 0

/-- `O_WRONLY` of `<fcntl.h>`. -/
def O_WRONLY : Nat := 1

/-- `O_RDWR` of `<fcntl.h>`. -/
def O_RDWR : Nat := 2

/-- `O_CREAT` of `<fcntl.h>` (octal 0100). -/
def O_CREAT : Nat := 64

/-- `O_EXCL` of `<fcntl.h>` (octal 0200). -/
def O_EXCL : Nat := 128

/-- `O_NONBLOCK` of `<fcntl.h>` (octal 04000). -/
def O_NONBLOCK : Nat := 2048

/-- `flag & ~mask` on a 32-bit pattern. -/
def clear_bits (flag mask : Nat) : Nat := flag &&& (4294967295 - mask)

/-- The message of the error `visit_open_flag` returns. -/
def unknown_open_flag : String :=
  "unknown open flag, expected one of: read-only, write-only, read-write, excl or nonblock"

/-- `visit_open_flag(data, item, item_len)` with `*flag` and the error pool as
state: the new pool, the new flag word and the value returned; `none` when
`errslot_plain` aborts on a full pool.  `file` is the `__FILE__` of `mq.c`. -/
def visit_open_flag (file : String) (pool : Errslot.Pool) (flag : Nat) (item : List Char)
    (item_len : Nat) : Option (Errslot.Pool × Nat × Int) :=
  if strncmp item "read-only".toList item_len = 0 then
    some (pool, clear_bits flag O_RDWR ||| O_RDONLY, 0)
  else if strncmp item "write-only".toList item_len = 0 then
    some (pool, clear_bits flag O_RDWR ||| O_WRONLY, 0)
  else if strncmp item "read-write".toList item_len = 0 then
    some (pool, flag ||| O_RDWR, 0)
  else if strncmp item "create".toList item_len = 0 then
    some (pool, flag ||| O_CREAT, 0)
  else if strncmp item "excl".toList item_len = 0 then
    some (pool, flag ||| O_EXCL, 0)
  else if strncmp item "nonblock".toList item_len = 0 then
    some (pool, flag ||| O_NONBLOCK, 0)
  else
    match Errslot.errslot_plain pool (some unknown_open_flag) "visit_open_flag" file 40 with
    | none => none
    | some (pool1, idx) => some (pool1, flag, idx)

/-- The six flag names. -/
def flag_names : List (List Char) :=
  ["read-only".toList, "write-only".toList, "read-write".toList, "create".toList,
   "excl".toList, "nonblock".toList]

end Mq

namespace Errslot

/-! ## Lookup -/

theorem position_lt (p : Fin ERRSLOT_MAX) : (p : Nat) < 32 := p.isLt

theorem errslot_at_eq_some {i : Int} {p : Fin ERRSLOT_MAX} :
    errslot_at i = some p ↔ (-32 ≤ i ∧ i ≤ -1 ∧ (p : Int) = -i - 1) := by
  unfold errslot_at
  constructor
  · intro h
    split at h
    · rename_i hc
      have hp := Option.some.inj h
      have h1 := hc.1
      have h2 := hc.2
      simp only [ERRSLOT_MAX] at h1 h2
      subst hp
      simp only [ERRSLOT_MAX]
      omega
    · cases h
  · rintro ⟨h1, h2, h3⟩
    have hc : i < 0 ∧ i > -(ERRSLOT_MAX : Int) - 1 := by
      simp only [ERRSLOT_MAX]; omega
    rw [dif_pos hc]
    congr 1
    apply Fin.ext
    have : ((p : Nat) : Int) = -i - 1 := h3
    show (-i - 1).toNat = (p : Nat)
    omega

theorem errslot_at_eq_none {i : Int} : errslot_at i = none ↔ ¬ (-32 ≤ i ∧ i ≤ -1) := by
  unfold errslot_at
  constructor
  · intro h
    split at h
    · cases h
    · rename_i hc
      simp only [ERRSLOT_MAX] at hc
      omega
  · intro h
    have hc : ¬ (i < 0 ∧ i > -(ERRSLOT_MAX : Int) - 1) := by
      simp only [ERRSLOT_MAX]; omega
    rw [dif_neg hc]

theorem errslot_at_index (p : Fin ERRSLOT_MAX) : errslot_at (-(p : Int) - 1) = some p := by
  rw [errslot_at_eq_some]
  have := p.isLt
  simp only [ERRSLOT_MAX] at this
  omega

/-! ## Allocation -/

/-- The domain `errslot_make` stores: the default domain for `NULL`. -/
theorem errslot_make_unfold (pool : Pool) (domain : Option errslot_domain) :
    errslot_make pool domain =
      errslot_make_loop pool (domain.getD errslot_domain_TODO) (ERRSLOT_MAX + 1) 0 := by
  cases domain <;> rfl

theorem errslot_make_loop_none (pool : Pool) (d : errslot_domain) :
    ∀ n k : Nat, (∀ p : Fin ERRSLOT_MAX, k ≤ (p : Nat) → pool p ≠ empty) →
      errslot_make_loop pool d n k = none := by
  intro n
  induction n with
  | zero => intro k _; rfl
  | succ n ih =>
    intro k hfull
    unfold errslot_make_loop
    by_cases hk : k < ERRSLOT_MAX
    · rw [dif_pos hk, if_neg (hfull ⟨k, hk⟩ (Nat.le_refl k))]
      exact ih (k + 1) (fun p hp => hfull p (by omega))
    · rw [dif_neg hk]

theorem errslot_make_loop_some (pool : Pool) (d : errslot_domain) :
    ∀ n k : Nat, ERRSLOT_MAX < n + k → ∀ p : Fin ERRSLOT_MAX, k ≤ (p : Nat) → pool p = empty →
      (∀ q : Fin ERRSLOT_MAX, k ≤ (q : Nat) → q < p → pool q ≠ empty) →
      errslot_make_loop pool d n k =
        some (Function.update pool p { pool p with es_domain := some d },
              { es_ptr := p, es_index := -((p : Nat) : Int) - 1 }) := by
  intro n
  induction n with
  | zero =>
    intro k hn p hp _ _
    have := p.isLt
    omega
  | succ n ih =>
    intro k hn p hp hfree hmin
    have hk : k < ERRSLOT_MAX := Nat.lt_of_le_of_lt hp p.isLt
    unfold errslot_make_loop
    rw [dif_pos hk]
    by_cases hz : pool ⟨k, hk⟩ = empty
    · have hpk : p = ⟨k, hk⟩ := by
        by_contra hne
        have hlt : (⟨k, hk⟩ : Fin ERRSLOT_MAX) < p := by
          rw [Fin.lt_def]
          have : (p : Nat) ≠ k := fun h => hne (Fin.ext h)
          show k < (p : Nat)
          omega
        exact hmin ⟨k, hk⟩ (Nat.le_refl k) hlt hz
      subst hpk
      rw [if_pos hz]
    · rw [if_neg hz]
      have hne : (p : Nat) ≠ k := by
        intro h
        apply hz
        have : p = ⟨k, hk⟩ := Fin.ext h
        rw [← this]; exact hfree
      exact ih (k + 1) (by omega) p (by omega) hfree
        (fun q hq hqp => hmin q (by omega) hqp)

/-- A pool with a free slot has a first free position. -/
theorem exists_first_free (pool : Pool) (h : ∃ p, pool p = empty) :
    ∃ p : Fin ERRSLOT_MAX, pool p = empty ∧ ∀ q : Fin ERRSLOT_MAX, q < p → pool q ≠ empty := by
  classical
  have hex : ∃ n : Nat, ∃ hn : n < ERRSLOT_MAX, pool ⟨n, hn⟩ = empty := by
    obtain ⟨p, hp⟩ := h
    exact ⟨p, p.isLt, hp⟩
  obtain ⟨hn, hfree⟩ := Nat.find_spec hex
  refine ⟨⟨Nat.find hex, hn⟩, hfree, ?_⟩
  intro q hq hqe
  exact Nat.find_min hex (show (q : Nat) < Nat.find hex from hq) ⟨q.isLt, hqe⟩

/-- `errslot_make` on a pool whose first free position is `p`. -/
theorem errslot_make_first_free (pool : Pool) (domain : Option errslot_domain)
    (p : Fin ERRSLOT_MAX) (hfree : pool p = empty)
    (hmin : ∀ q : Fin ERRSLOT_MAX, q < p → pool q ≠ empty) :
    errslot_make pool domain =
      some (Function.update pool p
              { pool p with es_domain := some (domain.getD errslot_domain_TODO) },
            { es_ptr := p, es_index := -((p : Nat) : Int) - 1 }) := by
  rw [errslot_make_unfold]
  exact errslot_make_loop_some pool _ (ERRSLOT_MAX + 1) 0 (by omega) p (Nat.zero_le _) hfree
    (fun q _ hq => hmin q hq)

theorem errslot_make_eq_none (pool : Pool) (domain : Option errslot_domain) :
    errslot_make pool domain = none ↔ ∀ p, pool p ≠ empty := by
  constructor
  · intro h p hp
    obtain ⟨q, hq, hmin⟩ := exists_first_free pool ⟨p, hp⟩
    rw [errslot_make_first_free pool domain q hq hmin] at h
    cases h
  · intro h
    rw [errslot_make_unfold]
    exact errslot_make_loop_none pool _ _ 0 (fun p _ => h p)

/-! ## Release -/

theorem errslot_unref_none (fuel : Nat) (pool : Pool) (idx : Int) (h : errslot_at idx = none) :
    errslot_unref (fuel + 1) pool idx = some (pool, []) := by
  unfold errslot_unref
  rw [h]

theorem cause_chain_nil {pool : Pool} {idx : Int} :
    cause_chain pool idx [] = true ↔ errslot_at idx = none := by
  simp [cause_chain]

theorem cause_chain_cons {pool : Pool} {idx a : Int} {rest : List Int} :
    cause_chain pool idx (a :: rest) = true ↔
      ∃ slot, errslot_at idx = some slot ∧ idx = a ∧
        cause_chain pool (pool slot).es_cause rest = true := by
  cases h : errslot_at idx with
  | none => simp [cause_chain, h]
  | some slot => simp [cause_chain, h]

theorem errslot_at_zero : errslot_at 0 = none := by
  rw [errslot_at_eq_none]; omega

/-- On a finite cause chain `errslot_unref` returns, whatever budget above the
chain length it is given: the chain's slots are zeroed and the calls made are
those of the chain's slots in order. -/
theorem errslot_unref_chain (pool : Pool) :
    ∀ (chain : List Int) (idx : Int) (fuel : Nat), cause_chain pool idx chain = true →
      chain.length < fuel →
      errslot_unref fuel pool idx = some (zeroed pool chain, chain_freed pool chain) := by
  intro chain
  induction chain with
  | nil =>
    intro idx fuel h hf
    rw [cause_chain_nil] at h
    obtain ⟨f, rfl⟩ : ∃ f, fuel = f + 1 := ⟨fuel - 1, by simp at hf; omega⟩
    rw [errslot_unref_none f pool idx h]
    rfl
  | cons a rest ih =>
    intro idx fuel h hf
    rw [cause_chain_cons] at h
    obtain ⟨slot, hat, rfl, hrest⟩ := h
    obtain ⟨f, rfl⟩ : ∃ f, fuel = f + 1 := ⟨fuel - 1, by simp at hf; omega⟩
    have hf1 : rest.length < f := by simp at hf; omega
    unfold errslot_unref
    simp only [hat, zeroed, chain_freed]
    by_cases hc : (pool slot).es_cause = 0
    · rw [hc] at hrest
      have hnil : rest = [] := by
        cases rest with
        | nil => rfl
        | cons b r =>
          rw [cause_chain_cons] at hrest
          obtain ⟨s, hs, _⟩ := hrest
          rw [errslot_at_zero] at hs
          cases hs
      subst hnil
      simp [hc, zeroed, chain_freed]
    · rw [if_pos hc, ih _ f hrest hf1]

theorem zeroed_apply (pool : Pool) (chain : List Int) (p : Fin ERRSLOT_MAX) :
    zeroed pool chain p = if ∃ i ∈ chain, errslot_at i = some p then empty else pool p := by
  induction chain with
  | nil => simp [zeroed]
  | cons a rest ih =>
    unfold zeroed
    cases h : errslot_at a with
    | none =>
      simp only [ih, List.mem_cons, exists_eq_or_imp, h]
      simp
    | some q =>
      simp only [Function.update_apply, ih, List.mem_cons, exists_eq_or_imp, h, Option.some.injEq]
      by_cases hpq : p = q
      · subst hpq; simp
      · have : ¬ q = p := fun e => hpq e.symm
        simp [hpq, this]

theorem cause_chain_unique (pool : Pool) :
    ∀ (c1 c2 : List Int) (idx : Int), cause_chain pool idx c1 = true →
      cause_chain pool idx c2 = true → c1 = c2 := by
  intro c1
  induction c1 with
  | nil =>
    intro c2 idx h1 h2
    rw [cause_chain_nil] at h1
    cases c2 with
    | nil => rfl
    | cons b r =>
      rw [cause_chain_cons] at h2
      obtain ⟨s, hs, _⟩ := h2
      rw [h1] at hs; cases hs
  | cons a r1 ih =>
    intro c2 idx h1 h2
    rw [cause_chain_cons] at h1
    obtain ⟨s, hs, rfl, hr⟩ := h1
    cases c2 with
    | nil =>
      rw [cause_chain_nil] at h2
      rw [h2] at hs; cases hs
    | cons b r2 =>
      rw [cause_chain_cons] at h2
      obtain ⟨s2, hs2, rfl, hr2⟩ := h2
      rw [hs] at hs2
      cases hs2
      rw [ih r2 _ hr hr2]

theorem cause_chain_suffix (pool : Pool) :
    ∀ (l1 : List Int) (a : Int) (l2 : List Int) (idx : Int),
      cause_chain pool idx (l1 ++ a :: l2) = true → cause_chain pool a (a :: l2) = true := by
  intro l1
  induction l1 with
  | nil =>
    intro a l2 idx h
    have h2 := h
    rw [List.nil_append, cause_chain_cons] at h2
    obtain ⟨_, _, rfl, _⟩ := h2
    exact h
  | cons b r ih =>
    intro a l2 idx h
    rw [List.cons_append, cause_chain_cons] at h
    obtain ⟨s, _, _, hr⟩ := h
    exact ih a l2 _ hr

/-- A finite cause chain visits no index twice. -/
theorem cause_chain_nodup (pool : Pool) :
    ∀ (chain : List Int) (idx : Int), cause_chain pool idx chain = true → chain.Nodup := by
  intro chain
  induction chain with
  | nil => intro _ _; exact List.nodup_nil
  | cons a rest ih =>
    intro idx h
    have h0 := h
    rw [cause_chain_cons] at h
    obtain ⟨s, hs, rfl, hr⟩ := h
    rw [List.nodup_cons]
    refine ⟨?_, ih _ hr⟩
    intro hmem
    obtain ⟨l1, l2, hsplit⟩ := List.append_of_mem hmem
    have h1 : cause_chain pool idx (idx :: l2) = true := by
      apply cause_chain_suffix pool l1 idx l2 (pool s).es_cause
      rw [← hsplit]; exact hr
    have heq := cause_chain_unique pool _ _ idx h0 h1
    have hlen := congrArg List.length heq
    rw [hsplit] at hlen
    simp at hlen
    omega

/-- Every index on a cause chain resolves to a slot. -/
theorem cause_chain_valid (pool : Pool) :
    ∀ (chain : List Int) (idx : Int), cause_chain pool idx chain = true →
      ∀ i ∈ chain, ∃ p, errslot_at i = some p := by
  intro chain
  induction chain with
  | nil => intro _ _ i hi; cases hi
  | cons a rest ih =>
    intro idx h i hi
    rw [cause_chain_cons] at h
    obtain ⟨s, hs, rfl, hr⟩ := h
    rcases List.mem_cons.mp hi with rfl | hi
    · exact ⟨s, hs⟩
    · exact ih _ hr i hi

theorem free_attached_eq_owed (s : errslot) : free_attached s = (owed s).toList := by
  rcases s with ⟨dom, v, m, fn, file, line, cause, data⟩
  rcases dom with _ | ⟨⟨fr, pr⟩⟩
  · simp [free_attached, owed]
  · cases fr with
    | none => simp [free_attached, owed]
    | some f =>
      by_cases h0 : data = 0
      · simp [free_attached, owed, h0]
      · simp [free_attached, owed, h0]

theorem chain_freed_eq_filterMap (pool : Pool) (chain : List Int) :
    chain_freed pool chain = chain.filterMap (fun i => (slot_at pool i).bind owed) := by
  induction chain with
  | nil => rfl
  | cons a rest ih =>
    rw [chain_freed, ih, List.filterMap_cons]
    cases h : errslot_at a with
    | none => simp [slot_at, h]
    | some q =>
      cases ho : owed (pool q) with
      | none => simp [slot_at, h, free_attached_eq_owed, ho]
      | some c => simp [slot_at, h, free_attached_eq_owed, ho]

theorem filterMap_all_owed (pool : Pool) (chain : List Int)
    (hall : ∀ i ∈ chain, ∃ s d f, slot_at pool i = some s ∧ s.es_data ≠ 0 ∧
      s.es_domain = some d ∧ d.esd_free = some f) :
    (chain.filterMap (fun i => (slot_at pool i).bind owed)).map (fun c => c.data) =
      chain.map (fun i => ((slot_at pool i).map (fun s => s.es_data)).getD 0) := by
  induction chain with
  | nil => rfl
  | cons a rest ih =>
    obtain ⟨s, d, f, hs, hdata, hd, hf⟩ := hall a (List.mem_cons_self _ _)
    have ho : (slot_at pool a).bind owed = some { routine := f, data := s.es_data } := by
      rw [hs]
      simp [owed, hd, hf, hdata]
    rw [List.filterMap_cons, ho]
    simp only [List.map_cons]
    rw [ih (fun i hi => hall i (List.mem_cons_of_mem _ hi)), hs]
    rfl

/-! ## Construction sequences -/

/-- After one more construction on a pool whose first `k` positions are in use
and whose other positions are free, position `k` is in use too and the index
returned is `-(k + 1)`. -/
theorem construct_next (pool : Pool) (k : Nat) (hk : k < ERRSLOT_MAX)
    (hlow : ∀ p : Fin ERRSLOT_MAX, (p : Nat) < k → (pool p).es_domain ≠ none)
    (hhigh : ∀ p : Fin ERRSLOT_MAX, k ≤ (p : Nat) → pool p = empty) (c : construction) :
    ∃ pool1, construct pool c = some (pool1, -(k : Int) - 1) ∧
      (∀ p : Fin ERRSLOT_MAX, (p : Nat) < k + 1 → (pool1 p).es_domain ≠ none) ∧
      (∀ p : Fin ERRSLOT_MAX, k + 1 ≤ (p : Nat) → pool1 p = empty) := by
  have hmin : ∀ q : Fin ERRSLOT_MAX, q < (⟨k, hk⟩ : Fin ERRSLOT_MAX) → pool q ≠ empty := by
    intro q hq hqe
    apply hlow q hq
    rw [hqe]; rfl
  have hmake := fun d => errslot_make_first_free pool d ⟨k, hk⟩ (hhigh ⟨k, hk⟩ (Nat.le_refl k)) hmin
  cases c with
  | make domain =>
    simp only [construct, hmake domain]
    refine ⟨_, rfl, ?_, ?_⟩
    · intro p hp
      by_cases hpk : p = ⟨k, hk⟩
      · subst hpk; simp
      · rw [Function.update_noteq hpk]
        apply hlow p
        have : (p : Nat) ≠ k := fun h => hpk (Fin.ext h)
        omega
    · intro p hp
      have hpk : p ≠ ⟨k, hk⟩ := by
        intro h; rw [h] at hp; simp at hp
      rw [Function.update_noteq hpk]
      exact hhigh p (by omega)
  | make_inline domain value msg cause function filename lineno =>
    simp only [construct, errslot_make_inline, hmake domain]
    refine ⟨_, rfl, ?_, ?_⟩
    · intro p hp
      by_cases hpk : p = ⟨k, hk⟩
      · subst hpk; simp
      · rw [Function.update_noteq hpk, Function.update_noteq hpk]
        apply hlow p
        have : (p : Nat) ≠ k := fun h => hpk (Fin.ext h)
        omega
    · intro p hp
      have hpk : p ≠ ⟨k, hk⟩ := by
        intro h; rw [h] at hp; simp at hp
      rw [Function.update_noteq hpk, Function.update_noteq hpk]
      exact hhigh p (by omega)

/-- Constructions without release fill the pool from position `k` upwards. -/
theorem construct_all_fill :
    ∀ (cs : List construction) (pool : Pool) (k : Nat), k + cs.length ≤ ERRSLOT_MAX →
      (∀ p : Fin ERRSLOT_MAX, (p : Nat) < k → (pool p).es_domain ≠ none) →
      (∀ p : Fin ERRSLOT_MAX, k ≤ (p : Nat) → pool p = empty) →
      ∃ pool1, construct_all pool cs =
          some (pool1, (List.range' k cs.length).map (fun j : Nat => -(j : Int) - 1)) ∧
        (∀ p : Fin ERRSLOT_MAX, (p : Nat) < k + cs.length → (pool1 p).es_domain ≠ none) ∧
        (∀ p : Fin ERRSLOT_MAX, k + cs.length ≤ (p : Nat) → pool1 p = empty) := by
  intro cs
  induction cs with
  | nil =>
    intro pool k _ hlow hhigh
    exact ⟨pool, rfl, hlow, hhigh⟩
  | cons c cs ih =>
    intro pool k hlen hlow hhigh
    simp only [List.length_cons] at hlen
    obtain ⟨pool1, h1, hlow1, hhigh1⟩ := construct_next pool k (by omega) hlow hhigh c
    obtain ⟨pool2, h2, hlow2, hhigh2⟩ := ih pool1 (k + 1) (by omega) hlow1 hhigh1
    refine ⟨pool2, ?_, ?_, ?_⟩
    · simp only [construct_all, h1, h2, List.length_cons, List.range'_succ, List.map_cons]
    · intro p hp
      exact hlow2 p (by simp only [List.length_cons] at hp; omega)
    · intro p hp
      exact hhigh2 p (by simp only [List.length_cons] at hp; omega)

/-! ## Printing -/

theorem written_append (f : FILE) (a b : List write) :
    written f (a ++ b) = written f a ++ written f b := by
  induction a with
  | nil => simp [written]
  | cons w ws ih =>
    by_cases h : w.stream = f
    · simp [written, h, ih, String.append_assoc]
    · simp [written, h, ih]

theorem written_one (f : FILE) (s : String) :
    written f [{ stream := f, text := s }] = s := by
  simp [written]

theorem cause_chain_to_zero_nil {pool : Pool} {idx : Int} :
    cause_chain_to_zero pool idx [] = true ↔ idx = 0 := by
  simp [cause_chain_to_zero]

theorem cause_chain_to_zero_cons {pool : Pool} {idx a : Int} {rest : List Int} :
    cause_chain_to_zero pool idx (a :: rest) = true ↔
      ∃ slot, errslot_at idx = some slot ∧ idx = a ∧
        cause_chain_to_zero pool (pool slot).es_cause rest = true := by
  cases h : errslot_at idx with
  | none => simp [cause_chain_to_zero, h]
  | some slot => simp [cause_chain_to_zero, h]

/-- A chain that ends with cause 0 is a finite cause chain. -/
theorem cause_chain_of_to_zero (pool : Pool) :
    ∀ (chain : List Int) (idx : Int), cause_chain_to_zero pool idx chain = true →
      cause_chain pool idx chain = true := by
  intro chain
  induction chain with
  | nil =>
    intro idx h
    rw [cause_chain_to_zero_nil] at h
    rw [cause_chain_nil, h]
    exact errslot_at_zero
  | cons a rest ih =>
    intro idx h
    rw [cause_chain_to_zero_cons] at h
    obtain ⟨slot, hat, ha, hrest⟩ := h
    rw [cause_chain_cons]
    exact ⟨slot, hat, ha, ih _ hrest⟩

theorem errslot_print_depth_plain (H : host) (pool : Pool) (f : FILE) (fuel : Nat) (idx : Int)
    (depth : Nat) (p : Fin ERRSLOT_MAX) (d : errslot_domain) (hat : errslot_at idx = some p)
    (hd : (pool p).es_domain = some d) (hfn : d.esd_print = some print_fn.plain) :
    errslot_print_depth H pool f (fuel + 1) idx depth =
      errslot_print_plain H (errslot_print_depth H pool f fuel) f (pool p) depth := by
  simp only [errslot_print_depth, hat, hd, hfn, esd_print_call]

theorem shown_msg_eq (pool : Pool) (idx : Int) (p : Fin ERRSLOT_MAX)
    (hat : errslot_at idx = some p) :
    shown_msg pool idx = (match (pool p).es_msg with
      | some msg => msg
      | none => "???") := by
  simp only [shown_msg, slot_at, hat, Option.map_some']

theorem errslot_print_plain_no_cause (H : host) (pd : Int → Nat → Option printed) (f : FILE)
    (slot : errslot) (depth : Nat) (hc : slot.es_cause = 0) :
    errslot_print_plain H pd f slot depth =
      some (if depth = 0 then
          seq (seq ([], 0) (fputs H (match slot.es_msg with
            | some msg => msg
            | none => "???") f)) (fputs H "\n" f)
        else seq ([], 0) (fputs H (match slot.es_msg with
            | some msg => msg
            | none => "???") f)) := by
  unfold errslot_print_plain
  simp [hc]

theorem errslot_print_plain_cause (H : host) (pd : Int → Nat → Option printed) (f : FILE)
    (slot : errslot) (depth : Nat) (r : printed) (hc : slot.es_cause ≠ 0)
    (hrec : pd slot.es_cause (depth + 1) = some r) :
    errslot_print_plain H pd f slot depth =
      some (if depth = 0 then
          seq (seq (seq (seq ([], 0) (fputs H (match slot.es_msg with
            | some msg => msg
            | none => "???") f)) (fputs H ": " f)) r) (fputs H "\n" f)
        else seq (seq (seq ([], 0) (fputs H (match slot.es_msg with
            | some msg => msg
            | none => "???") f)) (fputs H ": " f)) r) := by
  unfold errslot_print_plain
  simp [hc, hrec]

/-- A chain of plain-message slots printed from depth `depth`: the messages
inline, and the line break only at depth 0. -/
theorem errslot_print_depth_plain_chain (H : host) (pool : Pool) (f : FILE) :
    ∀ (chain : List Int) (idx : Int) (depth fuel : Nat),
      cause_chain_to_zero pool idx chain = true → chain ≠ [] →
      (∀ i ∈ chain, ∃ p d, errslot_at i = some p ∧ (pool p).es_domain = some d ∧
        d.esd_print = some print_fn.plain) →
      chain.length ≤ fuel →
      ∃ ws n, errslot_print_depth H pool f fuel idx depth = some (ws, n) ∧
        written f ws = chain_inline (chain.map (shown_msg pool)) ++
          (if depth = 0 then "\n" else "") ∧
        ∀ w ∈ ws, w.stream = f := by
  intro chain
  induction chain with
  | nil => intro _ _ _ _ hne; exact absurd rfl hne
  | cons a rest ih =>
    intro idx depth fuel hchain _ hplain hfuel
    rw [cause_chain_to_zero_cons] at hchain
    obtain ⟨p, hat, rfl, hrest⟩ := hchain
    obtain ⟨fu, rfl⟩ : ∃ fu, fuel = fu + 1 := ⟨fuel - 1, by simp at hfuel; omega⟩
    obtain ⟨p1, d, hat1, hd, hfn⟩ := hplain idx (List.mem_cons_self _ _)
    rw [hat] at hat1
    cases hat1
    rw [errslot_print_depth_plain H pool f fu idx depth p d hat hd hfn]
    have hmsg := shown_msg_eq pool idx p hat
    cases rest with
    | nil =>
      rw [cause_chain_to_zero_nil] at hrest
      rw [errslot_print_plain_no_cause H _ f (pool p) depth hrest]
      by_cases hdepth : depth = 0
      · refine ⟨_, _, by rw [if_pos hdepth], ?_, ?_⟩
        · simp [seq, fputs, written, hmsg, chain_inline, hdepth]
        · simp [seq, fputs]
      · refine ⟨_, _, by rw [if_neg hdepth], ?_, ?_⟩
        · simp [seq, fputs, written, hmsg, chain_inline, hdepth]
        · simp [seq, fputs]
    | cons b r =>
      have hrest0 := hrest
      rw [cause_chain_to_zero_cons] at hrest0
      obtain ⟨pb, hatb, hb, _⟩ := hrest0
      have hcause : (pool p).es_cause ≠ 0 := by
        intro h0
        rw [h0, errslot_at_zero] at hatb
        cases hatb
      obtain ⟨ws1, n1, hrec, hws1, hstream1⟩ := ih (pool p).es_cause (depth + 1) fu hrest
        (by simp) (fun i hi => hplain i (List.mem_cons_of_mem _ hi))
        (by simp at hfuel ⊢; omega)
      have hws1' : written f ws1 = chain_inline ((b :: r).map (shown_msg pool)) := by
        rw [hws1]; simp
      rw [errslot_print_plain_cause H _ f (pool p) depth (ws1, n1) hcause hrec]
      by_cases hdepth : depth = 0
      · refine ⟨_, _, by rw [if_pos hdepth], ?_, ?_⟩
        · simp only [seq, fputs, List.nil_append, written_append, written_one, hws1',
            List.map_cons, chain_inline, hmsg, hdepth, if_true, String.append_assoc]
        · intro w hw
          simp only [seq, fputs, List.nil_append, List.mem_append, List.mem_singleton,
            List.mem_cons, List.not_mem_nil, or_false] at hw
          rcases hw with ((rfl | rfl) | hw) | rfl
          · rfl
          · rfl
          · exact hstream1 w hw
          · rfl
      · refine ⟨_, _, by rw [if_neg hdepth], ?_, ?_⟩
        · simp only [seq, fputs, List.nil_append, written_append, written_one, hws1',
            List.map_cons, chain_inline, hmsg, hdepth, if_false, String.append_assoc,
            String.append_empty]
        · intro w hw
          simp only [seq, fputs, List.nil_append, List.mem_append, List.mem_singleton,
            List.mem_cons, List.not_mem_nil, or_false] at hw
          rcases hw with (rfl | rfl) | hw
          · rfl
          · rfl
          · exact hstream1 w hw

theorem errslot_print_depth_errno (H : host) (pool : Pool) (f : FILE) (fuel : Nat) (idx : Int)
    (depth : Nat) (p : Fin ERRSLOT_MAX) (d : errslot_domain) (hat : errslot_at idx = some p)
    (hd : (pool p).es_domain = some d) (hfn : d.esd_print = some print_fn.errno) :
    errslot_print_depth H pool f (fuel + 1) idx depth =
      errslot_print_errno H (errslot_print_depth H pool f fuel) f (pool p) depth := by
  simp only [errslot_print_depth, hat, hd, hfn, esd_print_call]

theorem paren_then_sep (x : String) : ")" ++ (": " ++ x) = "): " ++ x := by
  have h : ")" ++ ": " = "): " := by decide
  rw [← String.append_assoc, h]

theorem errslot_print_errno_no_cause_eq (H : host) (pd : Int → Nat → Option printed)
    (f : FILE) (slot : errslot) (depth : Nat) (hc : slot.es_cause = 0) :
    errslot_print_errno H pd f slot depth =
      some (if depth = 0 then
          seq (seq (match slot.es_msg with
              | some msg => seq (seq ([], 0) (fputs H msg f)) (fputs H ": " f)
              | none => ([], 0))
            (fprintf f (H.strerror slot.es_value ++ " (" ++ fmt_d slot.es_value ++ ")")))
            (fputs H "\n" f)
        else
          seq (match slot.es_msg with
              | some msg => seq (seq ([], 0) (fputs H msg f)) (fputs H ": " f)
              | none => ([], 0))
            (fprintf f (H.strerror slot.es_value ++ " (" ++ fmt_d slot.es_value ++ ")"))) := by
  unfold errslot_print_errno
  simp [hc]

theorem errslot_print_errno_cause_eq (H : host) (pd : Int → Nat → Option printed)
    (f : FILE) (slot : errslot) (depth : Nat) (r : printed) (hc : slot.es_cause ≠ 0)
    (hrec : pd slot.es_cause (depth + 1) = some r) :
    errslot_print_errno H pd f slot depth =
      some (if depth = 0 then
          seq (seq (seq (seq (match slot.es_msg with
              | some msg => seq (seq ([], 0) (fputs H msg f)) (fputs H ": " f)
              | none => ([], 0))
            (fprintf f (H.strerror slot.es_value ++ " (" ++ fmt_d slot.es_value ++ ")")))
            (fputs H ": " f)) r) (fputs H "\n" f)
        else
          seq (seq (seq (match slot.es_msg with
              | some msg => seq (seq ([], 0) (fputs H msg f)) (fputs H ": " f)
              | none => ([], 0))
            (fprintf f (H.strerror slot.es_value ++ " (" ++ fmt_d slot.es_value ++ ")")))
            (fputs H ": " f)) r) := by
  unfold errslot_print_errno
  simp [hc, hrec]

theorem errslot_print_errno_no_cause (H : host) (pd : Int → Nat → Option printed) (f : FILE)
    (slot : errslot) (depth : Nat) (hc : slot.es_cause = 0) :
    ∃ ws n, errslot_print_errno H pd f slot depth = some (ws, n) ∧
      written f ws = errno_head H slot ++ (if depth = 0 then "\n" else "") ∧
      ∀ w ∈ ws, w.stream = f := by
  rw [errslot_print_errno_no_cause_eq H pd f slot depth hc]
  unfold errno_head
  by_cases hdepth : depth = 0
  · rw [if_pos hdepth]
    refine ⟨_, _, rfl, ?_, ?_⟩
    · cases slot.es_msg <;>
        simp [seq, fputs, fprintf, written, String.append_assoc, hdepth]
    · cases slot.es_msg <;> simp [seq, fputs, fprintf]
  · rw [if_neg hdepth]
    refine ⟨_, _, rfl, ?_, ?_⟩
    · cases slot.es_msg <;>
        simp [seq, fputs, fprintf, written, String.append_assoc, hdepth]
    · cases slot.es_msg <;> simp [seq, fputs, fprintf]

theorem errslot_print_errno_cause (H : host) (pd : Int → Nat → Option printed) (f : FILE)
    (slot : errslot) (depth : Nat) (wc : List write) (nc : Int) (hc : slot.es_cause ≠ 0)
    (hrec : pd slot.es_cause (depth + 1) = some (wc, nc)) :
    ∃ ws n, errslot_print_errno H pd f slot depth = some (ws, n) ∧
      written f ws = errno_head H slot ++ ": " ++ written f wc ++
        (if depth = 0 then "\n" else "") := by
  rw [errslot_print_errno_cause_eq H pd f slot depth (wc, nc) hc hrec]
  unfold errno_head
  by_cases hdepth : depth = 0
  · rw [if_pos hdepth]
    refine ⟨_, _, rfl, ?_⟩
    cases slot.es_msg <;>
      simp [seq, fputs, fprintf, written, written_append, String.append_assoc, hdepth,
        paren_then_sep]
  · rw [if_neg hdepth]
    refine ⟨_, _, rfl, ?_⟩
    cases slot.es_msg <;>
      simp [seq, fputs, fprintf, written, written_append, String.append_assoc, hdepth,
        paren_then_sep]

theorem errslot_print_errno_cause_stream (H : host) (pd : Int → Nat → Option printed)
    (f : FILE) (slot : errslot) (depth : Nat) (wc : List write) (nc : Int)
    (hc : slot.es_cause ≠ 0) (hrec : pd slot.es_cause (depth + 1) = some (wc, nc)) :
    ∃ ws n, errslot_print_errno H pd f slot depth = some (ws, n) ∧
      written f ws = errno_head H slot ++ ": " ++ written f wc ++
        (if depth = 0 then "\n" else "") ∧
      ((∀ w ∈ wc, w.stream = f) → ∀ w ∈ ws, w.stream = f) := by
  rw [errslot_print_errno_cause_eq H pd f slot depth (wc, nc) hc hrec]
  unfold errno_head
  by_cases hdepth : depth = 0
  · rw [if_pos hdepth]
    refine ⟨_, _, rfl, ?_, ?_⟩
    · cases slot.es_msg <;>
        simp [seq, fputs, fprintf, written, written_append, String.append_assoc, hdepth,
          paren_then_sep]
    · intro hwc w hw
      cases hm : slot.es_msg <;> simp [hm, seq, fputs, fprintf] at hw <;>
        rcases hw with h | h | h | h <;> first | exact hwc w h | (subst h; rfl) | skip
      all_goals first | exact hwc w h | (rcases h with h | h | h <;>
        first | exact hwc w h | (subst h; rfl))
  · rw [if_neg hdepth]
    refine ⟨_, _, rfl, ?_, ?_⟩
    · cases slot.es_msg <;>
        simp [seq, fputs, fprintf, written, written_append, String.append_assoc, hdepth,
          paren_then_sep]
    · intro hwc w hw
      cases hm : slot.es_msg <;> simp [hm, seq, fputs, fprintf] at hw <;>
        rcases hw with h | h | h <;> first | exact hwc w h | (subst h; rfl) | skip
      all_goals first | exact hwc w h | (rcases h with h | h | h <;>
        first | exact hwc w h | (subst h; rfl))

theorem errslot_print_plain_no_cause_text (H : host) (pd : Int → Nat → Option printed)
    (f : FILE) (slot : errslot) (depth : Nat) (hc : slot.es_cause = 0) :
    ∃ ws n, errslot_print_plain H pd f slot depth = some (ws, n) ∧
      written f ws = (match slot.es_msg with
        | some msg => msg
        | none => "???") ++ (if depth = 0 then "\n" else "") ∧
      ∀ w ∈ ws, w.stream = f := by
  rw [errslot_print_plain_no_cause H pd f slot depth hc]
  by_cases hdepth : depth = 0
  · rw [if_pos hdepth]
    refine ⟨_, _, rfl, ?_, ?_⟩
    · simp [seq, fputs, written, hdepth]
    · simp [seq, fputs]
  · rw [if_neg hdepth]
    refine ⟨_, _, rfl, ?_, ?_⟩
    · simp [seq, fputs, written, hdepth]
    · simp [seq, fputs]

theorem errslot_print_plain_cause_text (H : host) (pd : Int → Nat → Option printed)
    (f : FILE) (slot : errslot) (depth : Nat) (wc : List write) (nc : Int)
    (hc : slot.es_cause ≠ 0) (hrec : pd slot.es_cause (depth + 1) = some (wc, nc)) :
    ∃ ws n, errslot_print_plain H pd f slot depth = some (ws, n) ∧
      written f ws = (match slot.es_msg with
        | some msg => msg
        | none => "???") ++ ": " ++ written f wc ++ (if depth = 0 then "\n" else "") ∧
      ((∀ w ∈ wc, w.stream = f) → ∀ w ∈ ws, w.stream = f) := by
  rw [errslot_print_plain_cause H pd f slot depth (wc, nc) hc hrec]
  by_cases hdepth : depth = 0
  · rw [if_pos hdepth]
    refine ⟨_, _, rfl, ?_, ?_⟩
    · simp only [seq, fputs, List.nil_append, written_append, written_one, hdepth, if_true,
        String.append_assoc]
    · intro hwc w hw
      simp only [seq, fputs, List.nil_append, List.mem_append, List.mem_singleton,
        List.mem_cons, List.not_mem_nil, or_false] at hw
      rcases hw with ((rfl | rfl) | hw) | rfl
      · rfl
      · rfl
      · exact hwc w hw
      · rfl
  · rw [if_neg hdepth]
    refine ⟨_, _, rfl, ?_, ?_⟩
    · simp only [seq, fputs, List.nil_append, written_append, written_one, hdepth, if_false,
        String.append_assoc, String.append_empty]
    · intro hwc w hw
      simp only [seq, fputs, List.nil_append, List.mem_append, List.mem_singleton,
        List.mem_cons, List.not_mem_nil, or_false] at hw
      rcases hw with (rfl | rfl) | hw
      · rfl
      · rfl
      · exact hwc w hw

/-- One step of printing an OS-error or plain-message slot: its head, then
`: ` and what the cause printed, then the line break at depth 0. -/
theorem errslot_print_depth_inline_step (H : host) (pool : Pool) (f : FILE) (fu : Nat)
    (idx : Int) (depth : Nat) (p : Fin ERRSLOT_MAX) (e : errslot_domain)
    (hat : errslot_at idx = some p) (hd : (pool p).es_domain = some e)
    (hfn : e.esd_print = some print_fn.errno ∨ e.esd_print = some print_fn.plain) :
    ((pool p).es_cause = 0 →
      ∃ ws n, errslot_print_depth H pool f (fu + 1) idx depth = some (ws, n) ∧
        written f ws = inline_head H pool idx ++ (if depth = 0 then "\n" else "") ∧
        ∀ w ∈ ws, w.stream = f) ∧
    (∀ (wc : List write) (nc : Int), (pool p).es_cause ≠ 0 →
      errslot_print_depth H pool f fu (pool p).es_cause (depth + 1) = some (wc, nc) →
      ∃ ws n, errslot_print_depth H pool f (fu + 1) idx depth = some (ws, n) ∧
        written f ws = inline_head H pool idx ++ ": " ++ written f wc ++
          (if depth = 0 then "\n" else "") ∧
        ((∀ w ∈ wc, w.stream = f) → ∀ w ∈ ws, w.stream = f)) := by
  rcases hfn with hfn | hfn
  · have hhead : inline_head H pool idx = errno_head H (pool p) := by
      simp only [inline_head, slot_at, hat, Option.map_some', hd, hfn]
    rw [hhead, errslot_print_depth_errno H pool f fu idx depth p e hat hd hfn]
    exact ⟨fun hc => errslot_print_errno_no_cause H _ f (pool p) depth hc,
      fun wc nc hc hrec => errslot_print_errno_cause_stream H _ f (pool p) depth wc nc hc hrec⟩
  · have hhead : inline_head H pool idx = (match (pool p).es_msg with
        | some msg => msg
        | none => "???") := by
      simp only [inline_head, slot_at, hat, Option.map_some', hd, hfn]
    rw [hhead, errslot_print_depth_plain H pool f fu idx depth p e hat hd hfn]
    exact ⟨fun hc => errslot_print_plain_no_cause_text H _ f (pool p) depth hc,
      fun wc nc hc hrec => errslot_print_plain_cause_text H _ f (pool p) depth wc nc hc hrec⟩

/-- A chain of OS-error and plain-message slots that ends with cause 0, printed
from depth `depth`: the heads inline, separated by `: `, and the line break
only at depth 0. -/
theorem errslot_print_depth_inline_chain (H : host) (pool : Pool) (f : FILE) :
    ∀ (chain : List Int) (idx : Int) (depth fuel : Nat),
      cause_chain_to_zero pool idx chain = true → chain ≠ [] →
      (∀ i ∈ chain, ∃ q e, errslot_at i = some q ∧ (pool q).es_domain = some e ∧
        (e.esd_print = some print_fn.errno ∨ e.esd_print = some print_fn.plain)) →
      chain.length ≤ fuel →
      ∃ ws n, errslot_print_depth H pool f fuel idx depth = some (ws, n) ∧
        written f ws = chain_inline (chain.map (inline_head H pool)) ++
          (if depth = 0 then "\n" else "") ∧
        ∀ w ∈ ws, w.stream = f := by
  intro chain
  induction chain with
  | nil => intro _ _ _ _ hne; exact absurd rfl hne
  | cons a rest ih =>
    intro idx depth fuel hchain _ hinline hfuel
    rw [cause_chain_to_zero_cons] at hchain
    obtain ⟨p, hat, rfl, hrest⟩ := hchain
    obtain ⟨fu, rfl⟩ : ∃ fu, fuel = fu + 1 := ⟨fuel - 1, by simp at hfuel; omega⟩
    obtain ⟨p1, e, hat1, hd, hfn⟩ := hinline idx (List.mem_cons_self _ _)
    rw [hat] at hat1
    cases hat1
    obtain ⟨hstep0, hstep1⟩ :=
      errslot_print_depth_inline_step H pool f fu idx depth p e hat hd hfn
    cases rest with
    | nil =>
      rw [cause_chain_to_zero_nil] at hrest
      obtain ⟨ws, n, h1, h2, h3⟩ := hstep0 hrest
      exact ⟨ws, n, h1, by simpa [chain_inline] using h2, h3⟩
    | cons b r =>
      have hrest0 := hrest
      rw [cause_chain_to_zero_cons] at hrest0
      obtain ⟨pb, hatb, _, _⟩ := hrest0
      have hcause : (pool p).es_cause ≠ 0 := by
        intro h0
        rw [h0, errslot_at_zero] at hatb
        cases hatb
      obtain ⟨wc, nc, hrec, hwc, hstream⟩ := ih (pool p).es_cause (depth + 1) fu hrest
        (by simp) (fun i hi => hinline i (List.mem_cons_of_mem _ hi))
        (by simp at hfuel ⊢; omega)
      have hwc1 : written f wc = chain_inline ((b :: r).map (inline_head H pool)) := by
        rw [hwc]; simp
      obtain ⟨ws, n, h1, h2, h3⟩ := hstep1 wc nc hcause hrec
      refine ⟨ws, n, h1, ?_, h3 hstream⟩
      rw [h2, hwc1]
      simp only [List.map_cons, chain_inline]

/-! ## Termination of printing -/

theorem errslot_print_errno_isSome (H : host) (pd : Int → Nat → Option printed) (f : FILE)
    (slot : errslot) (depth : Nat)
    (h : slot.es_cause ≠ 0 → (pd slot.es_cause (depth + 1)).isSome = true) :
    (errslot_print_errno H pd f slot depth).isSome = true := by
  by_cases hc : slot.es_cause = 0
  · rw [errslot_print_errno_no_cause_eq H pd f slot depth hc]; rfl
  · obtain ⟨r, hr⟩ := Option.isSome_iff_exists.mp (h hc)
    rw [errslot_print_errno_cause_eq H pd f slot depth r hc hr]; rfl

theorem errslot_print_plain_isSome (H : host) (pd : Int → Nat → Option printed) (f : FILE)
    (slot : errslot) (depth : Nat)
    (h : slot.es_cause ≠ 0 → (pd slot.es_cause (depth + 1)).isSome = true) :
    (errslot_print_plain H pd f slot depth).isSome = true := by
  by_cases hc : slot.es_cause = 0
  · rw [errslot_print_plain_no_cause H pd f slot depth hc]; rfl
  · obtain ⟨r, hr⟩ := Option.isSome_iff_exists.mp (h hc)
    rw [errslot_print_plain_cause H pd f slot depth r hc hr]; rfl

theorem errslot_print_TODO_isSome (pd : Int → Nat → Option printed) (f : FILE)
    (slot : errslot) (depth : Nat)
    (h : slot.es_cause ≠ 0 → (pd slot.es_cause (depth + 1)).isSome = true) :
    (errslot_print_TODO pd f slot depth).isSome = true := by
  unfold errslot_print_TODO
  by_cases hc : slot.es_cause = 0
  · simp [hc]
  · obtain ⟨r, hr⟩ := Option.isSome_iff_exists.mp (h hc)
    simp [hc, hr]

/-- On a finite cause chain `errslot_print_depth` returns for every budget
above the chain length. -/
theorem errslot_print_depth_terminates (H : host) (pool : Pool) (f : FILE) :
    ∀ (chain : List Int) (idx : Int) (depth fuel : Nat), cause_chain pool idx chain = true →
      chain.length < fuel → (errslot_print_depth H pool f fuel idx depth).isSome = true := by
  intro chain
  induction chain with
  | nil =>
    intro idx depth fuel h hf
    rw [cause_chain_nil] at h
    obtain ⟨fu, rfl⟩ : ∃ fu, fuel = fu + 1 := ⟨fuel - 1, by simp at hf; omega⟩
    simp only [errslot_print_depth, h]
    rfl
  | cons a rest ih =>
    intro idx depth fuel h hf
    rw [cause_chain_cons] at h
    obtain ⟨p, hat, rfl, hrest⟩ := h
    obtain ⟨fu, rfl⟩ : ∃ fu, fuel = fu + 1 := ⟨fuel - 1, by simp at hf; omega⟩
    have hrec : (errslot_print_depth H pool f fu (pool p).es_cause (depth + 1)).isSome = true :=
      ih _ (depth + 1) fu hrest (by simp at hf; omega)
    simp only [errslot_print_depth, hat]
    cases hd : (pool p).es_domain with
    | none => rfl
    | some d =>
      dsimp only
      cases hfn : d.esd_print with
      | none => rfl
      | some fn =>
        dsimp only
        cases fn with
        | errno => exact errslot_print_errno_isSome H _ f _ depth (fun _ => hrec)
        | plain => exact errslot_print_plain_isSome H _ f _ depth (fun _ => hrec)
        | TODO => exact errslot_print_TODO_isSome _ f _ depth (fun _ => hrec)
        | foreign addr => rfl

theorem errslot_print_errno_mono (H : host) (pd pd1 : Int → Nat → Option printed) (f : FILE)
    (slot : errslot) (depth : Nat) (r : printed)
    (hext : ∀ i k x, pd i k = some x → pd1 i k = some x)
    (h : errslot_print_errno H pd f slot depth = some r) :
    errslot_print_errno H pd1 f slot depth = some r := by
  by_cases hc : slot.es_cause = 0
  · rw [errslot_print_errno_no_cause_eq H pd f slot depth hc] at h
    rw [errslot_print_errno_no_cause_eq H pd1 f slot depth hc]
    exact h
  · cases hp : pd slot.es_cause (depth + 1) with
    | none =>
      unfold errslot_print_errno at h
      simp [hc, hp] at h
    | some x =>
      rw [errslot_print_errno_cause_eq H pd f slot depth x hc hp] at h
      rw [errslot_print_errno_cause_eq H pd1 f slot depth x hc (hext _ _ _ hp)]
      exact h

theorem errslot_print_plain_mono (H : host) (pd pd1 : Int → Nat → Option printed) (f : FILE)
    (slot : errslot) (depth : Nat) (r : printed)
    (hext : ∀ i k x, pd i k = some x → pd1 i k = some x)
    (h : errslot_print_plain H pd f slot depth = some r) :
    errslot_print_plain H pd1 f slot depth = some r := by
  by_cases hc : slot.es_cause = 0
  · rw [errslot_print_plain_no_cause H pd f slot depth hc] at h
    rw [errslot_print_plain_no_cause H pd1 f slot depth hc]
    exact h
  · cases hp : pd slot.es_cause (depth + 1) with
    | none =>
      unfold errslot_print_plain at h
      simp [hc, hp] at h
    | some x =>
      rw [errslot_print_plain_cause H pd f slot depth x hc hp] at h
      rw [errslot_print_plain_cause H pd1 f slot depth x hc (hext _ _ _ hp)]
      exact h

theorem errslot_print_TODO_mono (pd pd1 : Int → Nat → Option printed) (f : FILE)
    (slot : errslot) (depth : Nat) (r : printed)
    (hext : ∀ i k x, pd i k = some x → pd1 i k = some x)
    (h : errslot_print_TODO pd f slot depth = some r) :
    errslot_print_TODO pd1 f slot depth = some r := by
  unfold errslot_print_TODO at h ⊢
  by_cases hc : slot.es_cause = 0
  · simp only [hc, ne_eq, not_true_eq_false, if_false] at h ⊢
    exact h
  · cases hp : pd slot.es_cause (depth + 1) with
    | none => simp [hc, hp] at h
    | some x =>
      simp only [hc, ne_eq, not_false_eq_true, if_true, hp, hext _ _ _ hp] at h ⊢
      exact h

/-- A larger budget does not change what `errslot_print_depth` returns. -/
theorem errslot_print_depth_mono (H : host) (pool : Pool) (f : FILE) :
    ∀ (fuel : Nat) (idx : Int) (depth : Nat) (r : printed),
      errslot_print_depth H pool f fuel idx depth = some r →
      errslot_print_depth H pool f (fuel + 1) idx depth = some r := by
  intro fuel
  induction fuel with
  | zero => intro idx depth r h; simp [errslot_print_depth] at h
  | succ fu ih =>
    intro idx depth r h
    rw [errslot_print_depth] at h ⊢
    cases hat : errslot_at idx with
    | none => simpa only [hat] using h
    | some p =>
      simp only [hat] at h ⊢
      cases hd : (pool p).es_domain with
      | none => simpa only [hd] using h
      | some d =>
        simp only [hd] at h ⊢
        cases hfn : d.esd_print with
        | none => simpa only [hfn] using h
        | some fn =>
          simp only [hfn] at h ⊢
          cases fn with
          | errno => exact errslot_print_errno_mono H _ _ f _ depth r ih h
          | plain => exact errslot_print_plain_mono H _ _ f _ depth r ih h
          | TODO => exact errslot_print_TODO_mono _ _ f _ depth r ih h
          | foreign addr => exact h

theorem errslot_print_depth_mono_le (H : host) (pool : Pool) (f : FILE) (idx : Int)
    (depth : Nat) (r : printed) (fuel : Nat)
    (h : errslot_print_depth H pool f fuel idx depth = some r) :
    ∀ k : Nat, errslot_print_depth H pool f (fuel + k) idx depth = some r := by
  intro k
  induction k with
  | zero => exact h
  | succ k ih => exact errslot_print_depth_mono H pool f (fuel + k) idx depth r ih

/-- On a finite cause chain the result of `errslot_print_depth` exists and is
the same for every budget above the chain length. -/
theorem errslot_print_depth_result (H : host) (pool : Pool) (f : FILE) (chain : List Int)
    (idx : Int) (depth : Nat) (hchain : cause_chain pool idx chain = true) :
    ∃ r : printed, ∀ fuel : Nat, chain.length < fuel →
      errslot_print_depth H pool f fuel idx depth = some r := by
  obtain ⟨r, hr⟩ := Option.isSome_iff_exists.mp
    (errslot_print_depth_terminates H pool f chain idx depth (chain.length + 1) hchain
      (Nat.lt_succ_self _))
  refine ⟨r, ?_⟩
  intro fuel hf
  obtain ⟨k, rfl⟩ : ∃ k, fuel = chain.length + 1 + k := ⟨fuel - (chain.length + 1), by omega⟩
  exact errslot_print_depth_mono_le H pool f idx depth r _ hr k

/-! ## The printers running on the pool -/

theorem errslot_print_errno_run_eq (H : host)
    (pdr : Pool → Int → Nat → Option (Pool × printed)) (pd : Int → Nat → Option printed)
    (f : FILE) (pool : Pool) (slot : Fin ERRSLOT_MAX) (depth : Nat)
    (hpd : ∀ i k, pdr pool i k = (pd i k).map (fun r => (pool, r))) :
    errslot_print_errno_run H pdr f pool slot depth =
      (errslot_print_errno H pd f (pool slot) depth).map (fun r => (pool, r)) := by
  unfold errslot_print_errno_run errslot_print_errno
  rw [hpd]
  by_cases hc : (pool slot).es_cause = 0
  · simp [hc]
  · cases h : pd (pool slot).es_cause (depth + 1) <;> simp [hc, h]

theorem errslot_print_plain_run_eq (H : host)
    (pdr : Pool → Int → Nat → Option (Pool × printed)) (pd : Int → Nat → Option printed)
    (f : FILE) (pool : Pool) (slot : Fin ERRSLOT_MAX) (depth : Nat)
    (hpd : ∀ i k, pdr pool i k = (pd i k).map (fun r => (pool, r))) :
    errslot_print_plain_run H pdr f pool slot depth =
      (errslot_print_plain H pd f (pool slot) depth).map (fun r => (pool, r)) := by
  unfold errslot_print_plain_run errslot_print_plain
  rw [hpd]
  by_cases hc : (pool slot).es_cause = 0
  · simp [hc]
  · cases h : pd (pool slot).es_cause (depth + 1) <;> simp [hc, h]

theorem errslot_print_TODO_run_eq (pdr : Pool → Int → Nat → Option (Pool × printed))
    (pd : Int → Nat → Option printed) (f : FILE) (pool : Pool) (slot : Fin ERRSLOT_MAX)
    (depth : Nat) (hpd : ∀ i k, pdr pool i k = (pd i k).map (fun r => (pool, r))) :
    errslot_print_TODO_run pdr f pool slot depth =
      (errslot_print_TODO pd f (pool slot) depth).map (fun r => (pool, r)) := by
  unfold errslot_print_TODO_run errslot_print_TODO
  rw [hpd]
  by_cases hc : (pool slot).es_cause = 0
  · simp [hc]
  · cases h : pd (pool slot).es_cause (depth + 1) <;> simp [hc, h]

/-- The printers of the repository leave the pool as they found it, and print
what `errslot_print_depth` says, provided the print functions defined
elsewhere leave the pool alone too. -/
theorem errslot_print_depth_run_eq (H : host)
    (F : Nat → Pool → FILE → Fin ERRSLOT_MAX → Nat → Pool) (f : FILE)
    (hF : ∀ addr pool s depth, F addr pool f s depth = pool) :
    ∀ (fuel : Nat) (pool : Pool) (idx : Int) (depth : Nat),
      errslot_print_depth_run H F f fuel pool idx depth =
        (errslot_print_depth H pool f fuel idx depth).map (fun r => (pool, r)) := by
  intro fuel
  induction fuel with
  | zero => intro pool idx depth; rfl
  | succ fu ih =>
    intro pool idx depth
    rw [errslot_print_depth_run, errslot_print_depth]
    cases hat : errslot_at idx with
    | none => rfl
    | some slot =>
      dsimp only
      cases hd : (pool slot).es_domain with
      | none => rfl
      | some d =>
        dsimp only
        cases hfn : d.esd_print with
        | none => rfl
        | some fn =>
          dsimp only
          cases fn with
          | errno =>
            exact errslot_print_errno_run_eq H _ _ f pool slot depth (fun i k => ih pool i k)
          | plain =>
            exact errslot_print_plain_run_eq H _ _ f pool slot depth (fun i k => ih pool i k)
          | TODO =>
            exact errslot_print_TODO_run_eq _ _ f pool slot depth (fun i k => ih pool i k)
          | foreign addr =>
            simp only [esd_print_call_run, esd_print_call, hF, Option.map_some']

/-! ## Chains and constructions -/

/-- A finite cause chain visits at most 32 slots. -/
theorem cause_chain_length_le (pool : Pool) (chain : List Int) (idx : Int)
    (hchain : cause_chain pool idx chain = true) : chain.length ≤ 32 := by
  have hnd := cause_chain_nodup pool chain idx hchain
  have hsub : chain.toFinset ⊆ Finset.Icc (-32 : Int) (-1) := by
    intro i hi
    rw [List.mem_toFinset] at hi
    obtain ⟨p, hp⟩ := cause_chain_valid pool chain idx hchain i hi
    have h := errslot_at_eq_some.mp hp
    rw [Finset.mem_Icc]
    exact ⟨h.1, h.2.1⟩
  have hcard := Finset.card_le_card hsub
  rw [List.toFinset_card_of_nodup hnd, Int.card_Icc] at hcard
  simpa using hcard

/-- A successful `errslot_make` took the first free position. -/
theorem errslot_make_eq_some (pool : Pool) (domain : Option errslot_domain) (pool1 : Pool)
    (info : errslot_info) (h : errslot_make pool domain = some (pool1, info)) :
    pool info.es_ptr = empty ∧ (∀ q : Fin ERRSLOT_MAX, q < info.es_ptr → pool q ≠ empty) ∧
      pool1 = Function.update pool info.es_ptr
        { pool info.es_ptr with es_domain := some (domain.getD errslot_domain_TODO) } ∧
      info.es_index = -((info.es_ptr : Nat) : Int) - 1 := by
  have hfree : ∃ p, pool p = empty := by
    by_contra hno
    have hfull : ∀ p, pool p ≠ empty := fun p hp => hno ⟨p, hp⟩
    rw [(errslot_make_eq_none pool domain).mpr hfull] at h
    cases h
  obtain ⟨p, hp, hmin⟩ := exists_first_free pool hfree
  rw [errslot_make_first_free pool domain p hp hmin] at h
  have h1 := Option.some.inj h
  have hpool := congrArg Prod.fst h1
  have hinfo := congrArg Prod.snd h1
  simp only at hpool hinfo
  subst hinfo
  exact ⟨hp, hmin, hpool.symm, rfl⟩

/-- With a self-referring cause `errslot_unref` uses up every budget. -/
theorem errslot_unref_self_cause (fuel : Nat) :
    errslot_unref fuel pool_self_cause (-1) = none := by
  induction fuel with
  | zero => rfl
  | succ fu ih =>
    have hat : errslot_at (-1) = some 0 := by decide
    have hc : (pool_self_cause 0).es_cause = -1 := by decide
    rw [errslot_unref]
    simp only [hat, hc, ih]
    decide

/-- With a self-referring cause `errslot_print_depth` uses up every budget. -/
theorem errslot_print_depth_self_cause (H : host) (f : FILE) (fuel : Nat) :
    ∀ depth : Nat, errslot_print_depth H pool_self_cause f fuel (-1) depth = none := by
  induction fuel with
  | zero => intro depth; rfl
  | succ fu ih =>
    intro depth
    have hat : errslot_at (-1) = some 0 := by decide
    have hd : (pool_self_cause 0).es_domain = some errslot_domain_plain := by decide
    have hc : (pool_self_cause 0).es_cause = -1 := by decide
    rw [errslot_print_depth_plain H pool_self_cause f fu (-1) depth 0 errslot_domain_plain
      hat hd rfl]
    unfold errslot_print_plain
    simp [hc, ih]

/-! ## Reachable pools -/

/-- `errslot_make_inline` on a pool whose first free position is `p`. -/
theorem errslot_make_inline_first_free (pool : Pool) (domain : Option errslot_domain)
    (value : Int) (msg : Option String) (cause : Int) (function filename : Option String)
    (lineno : Int) (p : Fin ERRSLOT_MAX) (hfree : pool p = empty)
    (hmin : ∀ q : Fin ERRSLOT_MAX, q < p → pool q ≠ empty) :
    errslot_make_inline pool domain value msg cause function filename lineno =
      some (Function.update pool p
              { es_domain := some (domain.getD errslot_domain_TODO), es_value := value,
                es_msg := msg, es_function := function, es_filename := filename,
                es_lineno := lineno, es_cause := cause, es_data := 0 },
            -((p : Nat) : Int) - 1) := by
  simp only [errslot_make_inline, errslot_make_first_free pool domain p hfree hmin,
    Function.update_same, Function.update_idem, hfree]
  rfl

/-- A successful `errslot_make_inline` changed the selected free slot only, and
left the given cause in it. -/
theorem errslot_make_inline_eq_some (pool : Pool) (domain : Option errslot_domain)
    (value : Int) (msg : Option String) (cause : Int) (function filename : Option String)
    (lineno : Int) (pool1 : Pool) (idx : Int)
    (h : errslot_make_inline pool domain value msg cause function filename lineno =
      some (pool1, idx)) :
    ∃ p : Fin ERRSLOT_MAX, pool p = empty ∧ errslot_at idx = some p ∧
      (pool1 p).es_cause = cause ∧ ∀ q : Fin ERRSLOT_MAX, q ≠ p → pool1 q = pool q := by
  have hfree : ∃ p, pool p = empty := by
    by_contra hno
    have hfull : ∀ p, pool p ≠ empty := fun p hp => hno ⟨p, hp⟩
    simp [errslot_make_inline, (errslot_make_eq_none pool domain).mpr hfull] at h
  obtain ⟨p, hp, hmin⟩ := exists_first_free pool hfree
  rw [errslot_make_inline_first_free pool domain value msg cause function filename lineno p
    hp hmin] at h
  simp only [Option.some.injEq, Prod.mk.injEq] at h
  obtain ⟨hpool, hidx⟩ := h
  subst hpool hidx
  refine ⟨p, hp, errslot_at_index p, by simp, ?_⟩
  intro q hq
  exact Function.update_noteq hq _ _

/-- A larger budget does not change what `errslot_unref` returns. -/
theorem errslot_unref_mono (pool : Pool) :
    ∀ (fuel : Nat) (idx : Int) (r : Pool × List free_call),
      errslot_unref fuel pool idx = some r → errslot_unref (fuel + 1) pool idx = some r := by
  intro fuel
  induction fuel with
  | zero => intro idx r h; simp [errslot_unref] at h
  | succ fu ih =>
    intro idx r h
    rw [errslot_unref] at h ⊢
    cases hat : errslot_at idx with
    | none => simpa only [hat] using h
    | some s =>
      simp only [hat] at h ⊢
      by_cases hc : (pool s).es_cause = 0
      · simpa only [hc, ne_eq, not_true_eq_false, if_false] using h
      · simp only [hc, ne_eq, not_false_eq_true, if_true] at h ⊢
        cases hrec : errslot_unref fu pool (pool s).es_cause with
        | none => simp [hrec] at h
        | some x =>
          rw [ih _ x hrec]
          simpa only [hrec] using h

theorem errslot_unref_mono_le (pool : Pool) (fuel : Nat) (idx : Int)
    (r : Pool × List free_call) (h : errslot_unref fuel pool idx = some r) :
    ∀ k : Nat, errslot_unref (fuel + k) pool idx = some r := by
  intro k
  induction k with
  | zero => exact h
  | succ k ih => exact errslot_unref_mono pool (fuel + k) idx r ih

/-- Whatever budget made `errslot_unref` return on a finite chain, the pool it
leaves is the one with the chain zeroed. -/
theorem errslot_unref_eq_zeroed (pool : Pool) (fuel : Nat) (idx : Int) (chain : List Int)
    (r : Pool × List free_call) (hchain : cause_chain pool idx chain = true)
    (h : errslot_unref fuel pool idx = some r) : r.1 = zeroed pool chain := by
  have h1 := errslot_unref_mono_le pool fuel idx r h (chain.length + 1)
  rw [errslot_unref_chain pool chain idx (fuel + (chain.length + 1)) hchain (by omega)] at h1
  rw [← Option.some.inj h1]

/-- Chains to zero carry over to a pool in which every slot either kept its
cause or has a chain to zero of its own. -/
theorem cause_chain_to_zero_transfer (pool pool1 : Pool)
    (h : ∀ s : Fin ERRSLOT_MAX, (pool1 s).es_cause = (pool s).es_cause ∨
      ∃ chain, cause_chain_to_zero pool1 (-((s : Nat) : Int) - 1) chain = true) :
    ∀ (chain : List Int) (idx : Int), cause_chain_to_zero pool idx chain = true →
      ∃ chain1, cause_chain_to_zero pool1 idx chain1 = true := by
  intro chain
  induction chain with
  | nil =>
    intro idx hc
    rw [cause_chain_to_zero_nil] at hc
    exact ⟨[], by rw [cause_chain_to_zero_nil]; exact hc⟩
  | cons a rest ih =>
    intro idx hc
    rw [cause_chain_to_zero_cons] at hc
    obtain ⟨s, hat, _, hrest⟩ := hc
    have hidx : idx = -((s : Nat) : Int) - 1 := by
      have := (errslot_at_eq_some.mp hat).2.2
      omega
    rcases h s with hsame | ⟨chain1, hchain1⟩
    · obtain ⟨chain1, hchain1⟩ := ih _ hrest
      refine ⟨idx :: chain1, ?_⟩
      rw [cause_chain_to_zero_cons]
      exact ⟨s, hat, rfl, by rw [hsame]; exact hchain1⟩
    · exact ⟨chain1, by rw [hidx]; exact hchain1⟩

/-- A chain of slots in use is untouched by a change of a free slot. -/
theorem cause_chain_to_zero_live (pool pool1 : Pool) (p : Fin ERRSLOT_MAX)
    (hfree : pool p = empty) (hsame : ∀ q : Fin ERRSLOT_MAX, q ≠ p → pool1 q = pool q) :
    ∀ (chain : List Int) (c : Int), cause_chain_to_zero pool c chain = true →
      live_chain pool chain = true → cause_chain_to_zero pool1 c chain = true := by
  intro chain
  induction chain with
  | nil => intro c hc _; rw [cause_chain_to_zero_nil] at hc ⊢; exact hc
  | cons a rest ih =>
    intro c hc hlive
    rw [cause_chain_to_zero_cons] at hc
    obtain ⟨s, hat, ha, hrest⟩ := hc
    subst ha
    simp only [live_chain, hat, Bool.and_eq_true, decide_eq_true_eq] at hlive
    have hsp : s ≠ p := fun e => hlive.1 (by rw [e]; exact hfree)
    rw [cause_chain_to_zero_cons]
    refine ⟨s, hat, rfl, ?_⟩
    rw [hsame s hsp]
    exact ih _ hrest hlive.2

theorem chains_end_at_zero_transfer (pool pool1 : Pool) (hinv : chains_end_at_zero pool)
    (h : ∀ s : Fin ERRSLOT_MAX, (pool1 s).es_cause = (pool s).es_cause ∨
      ∃ chain, cause_chain_to_zero pool1 (-((s : Nat) : Int) - 1) chain = true) :
    chains_end_at_zero pool1 := by
  intro p
  obtain ⟨chain, hchain⟩ := hinv p
  exact cause_chain_to_zero_transfer pool pool1 h chain _ hchain

/-- With all chains ending at zero, every index has a finite cause chain, which
ends with cause 0 when the index resolves. -/
theorem chains_end_at_zero_chain (pool : Pool) (hinv : chains_end_at_zero pool) (idx : Int) :
    ∃ chain, cause_chain pool idx chain = true ∧
      ((-32 ≤ idx ∧ idx ≤ -1) → cause_chain_to_zero pool idx chain = true) := by
  cases hat : errslot_at idx with
  | none =>
    refine ⟨[], cause_chain_nil.mpr hat, ?_⟩
    intro hr
    exact absurd hr (errslot_at_eq_none.mp hat)
  | some p =>
    obtain ⟨chain, hchain⟩ := hinv p
    have hidx : idx = -((p : Nat) : Int) - 1 := by
      have := (errslot_at_eq_some.mp hat).2.2
      omega
    rw [← hidx] at hchain
    exact ⟨chain, cause_chain_of_to_zero pool chain idx hchain, fun _ => hchain⟩

/-- In every reachable pool all chains end at zero. -/
theorem reachable_chains_end_at_zero (pool : Pool) (hreach : reachable pool) :
    chains_end_at_zero pool := by
  induction hreach with
  | init =>
    intro p
    refine ⟨[-((p : Nat) : Int) - 1], ?_⟩
    rw [cause_chain_to_zero_cons]
    exact ⟨p, errslot_at_index p, rfl, by rw [cause_chain_to_zero_nil]; rfl⟩
  | make pool domain pool1 info _ hmake ih =>
    obtain ⟨_, _, hpool, _⟩ := errslot_make_eq_some pool domain pool1 info hmake
    apply chains_end_at_zero_transfer pool pool1 ih
    intro s
    left
    rw [hpool]
    by_cases hs : s = info.es_ptr
    · subst hs; simp
    · rw [Function.update_noteq hs]
  | make_inline pool domain value msg cause function filename lineno pool1 idx _ hcause
      hmake ih =>
    obtain ⟨p, hfree, _, hpc, hsame⟩ :=
      errslot_make_inline_eq_some pool domain value msg cause function filename lineno pool1
        idx hmake
    obtain ⟨cc, hcc, hlive⟩ := hcause
    have hnew : cause_chain_to_zero pool1 cause cc = true :=
      cause_chain_to_zero_live pool pool1 p hfree hsame cc cause hcc hlive
    apply chains_end_at_zero_transfer pool pool1 ih
    intro s
    by_cases hs : s = p
    · right
      subst hs
      refine ⟨(-((s : Nat) : Int) - 1) :: cc, ?_⟩
      rw [cause_chain_to_zero_cons]
      exact ⟨s, errslot_at_index s, rfl, by rw [hpc]; exact hnew⟩
    · left
      rw [hsame s hs]
  | unref pool fuel idx pool1 freed _ hunref ih =>
    obtain ⟨chain, hchain, _⟩ := chains_end_at_zero_chain pool ih idx
    have hpool : pool1 = zeroed pool chain :=
      errslot_unref_eq_zeroed pool fuel idx chain (pool1, freed) hchain hunref
    apply chains_end_at_zero_transfer pool pool1 ih
    intro s
    rw [hpool, zeroed_apply]
    by_cases hz : ∃ i ∈ chain, errslot_at i = some s
    · right
      refine ⟨[-((s : Nat) : Int) - 1], ?_⟩
      rw [cause_chain_to_zero_cons]
      refine ⟨s, errslot_at_index s, rfl, ?_⟩
      rw [zeroed_apply, if_pos hz, cause_chain_to_zero_nil]
      rfl
    · left
      rw [if_neg hz]

/-! ## The claims -/

/-- C1: on every pool with at least one free (all-zero) slot and for every
domain argument, `errslot_make` returns an index between -32 and -1, and
`errslot_at` of that index is the slot it selected, whose domain in the
resulting pool is the requested one, or the default (TODO) domain when the
argument is `NULL`. -/
theorem errslot_make_index_in_range_and_domain (pool : Pool) (domain : Option errslot_domain)
    (hfree : ∃ p, pool p = empty) :
    ∃ pool1 info, errslot_make pool domain = some (pool1, info) ∧
      -32 ≤ info.es_index ∧ info.es_index ≤ -1 ∧
      errslot_at info.es_index = some info.es_ptr ∧
      ∃ slot, slot_at pool1 info.es_index = some slot ∧
        slot.es_domain = some (match domain with
          | none => errslot_domain_TODO
          | some d => d) := by
  obtain ⟨p, hp, hmin⟩ := exists_first_free pool hfree
  refine ⟨_, _, errslot_make_first_free pool domain p hp hmin, ?_, ?_, ?_, ?_⟩
  · have := position_lt p
    show -32 ≤ -((p : Nat) : Int) - 1
    omega
  · show -((p : Nat) : Int) - 1 ≤ -1
    omega
  · exact errslot_at_index p
  · have hat : slot_at (Function.update pool p
          { pool p with es_domain := some (domain.getD errslot_domain_TODO) })
        (-((p : Nat) : Int) - 1) =
        some { pool p with es_domain := some (domain.getD errslot_domain_TODO) } := by
      unfold slot_at
      rw [errslot_at_index p]
      simp
    refine ⟨_, hat, ?_⟩
    cases domain <;> rfl

theorem errslot_make_index_in_range_and_domain_witness :
    (∃ p, errslot_main_init p = empty) ∧
    ∃ pool1 info, errslot_make errslot_main_init none = some (pool1, info) ∧
      -32 ≤ info.es_index ∧ info.es_index ≤ -1 ∧
      errslot_at info.es_index = some info.es_ptr ∧
      ∃ slot, slot_at pool1 info.es_index = some slot ∧
        slot.es_domain = some errslot_domain_TODO :=
  ⟨⟨0, rfl⟩, errslot_make_index_in_range_and_domain errslot_main_init none ⟨0, rfl⟩⟩

/-- C2: starting from the empty pool, any 32 constructions without a release
(`errslot_make` or `errslot_make_inline`, with any arguments) all succeed and
return the pairwise distinct indices -1, -2, ..., -32, after which a 33rd
construction aborts; and in any pool `errslot_make` aborts if and only if no
slot is all-zero. -/
theorem exhaustion_exactly_at_capacity :
    (∀ cs : List construction, cs.length = 32 →
      ∃ pool1 idxs, construct_all errslot_main_init cs = some (pool1, idxs) ∧
        idxs = (List.range' 0 32).map (fun j : Nat => -(j : Int) - 1) ∧
        idxs.Nodup ∧ idxs.length = 32 ∧
        (∀ domain, errslot_make pool1 domain = none) ∧
        (∀ c, construct pool1 c = none)) ∧
    (∀ (pool : Pool) (domain : Option errslot_domain),
      errslot_make pool domain = none ↔ ∀ p, pool p ≠ empty) := by
  refine ⟨?_, errslot_make_eq_none⟩
  intro cs hlen
  obtain ⟨pool1, h1, hlow, _⟩ := construct_all_fill cs errslot_main_init 0
    (by rw [hlen]) (fun p hp => absurd hp (Nat.not_lt_zero _)) (fun _ _ => rfl)
  have hfull : ∀ p, pool1 p ≠ empty := by
    intro p hp
    apply hlow p (by rw [hlen]; have := position_lt p; omega)
    rw [hp]; rfl
  have hmake : ∀ domain, errslot_make pool1 domain = none :=
    fun domain => (errslot_make_eq_none pool1 domain).mpr hfull
  rw [hlen] at h1
  refine ⟨pool1, _, h1, rfl, ?_, by simp, hmake, ?_⟩
  · apply List.Nodup.map
    · intro a b hab
      simp only at hab
      omega
    · exact List.nodup_range' 0 32
  · intro c
    cases c with
    | make domain => simp only [construct, hmake domain]
    | make_inline domain value msg cause function filename lineno =>
      simp only [construct, errslot_make_inline, hmake domain]

theorem exhaustion_exactly_at_capacity_witness :
    (List.replicate 32 (construction.make none)).length = 32 ∧
    ∃ pool1 idxs,
      construct_all errslot_main_init (List.replicate 32 (construction.make none)) =
        some (pool1, idxs) ∧
      idxs = (List.range' 0 32).map (fun j : Nat => -(j : Int) - 1) ∧
      idxs.Nodup ∧ idxs.length = 32 ∧
      (∀ domain, errslot_make pool1 domain = none) ∧
      (∀ c, construct pool1 c = none) :=
  ⟨by decide, exhaustion_exactly_at_capacity.1 _ (by decide)⟩

/-- C3: `errslot_at` is total; it returns a slot exactly for the indices
-32..-1, namely the slot at position `-i - 1`; distinct valid indices resolve
to distinct positions and every position has exactly one index; index 0,
positive indices and indices below -32 never resolve. -/
theorem errslot_at_range_bijection :
    (∀ i : Int, (∃ p, errslot_at i = some p) ↔ (-32 ≤ i ∧ i ≤ -1)) ∧
    (∀ (i : Int) (p : Fin ERRSLOT_MAX), errslot_at i = some p → ((p : Nat) : Int) = -i - 1) ∧
    (∀ (i j : Int) (p : Fin ERRSLOT_MAX), errslot_at i = some p → errslot_at j = some p → i = j) ∧
    (∀ p : Fin ERRSLOT_MAX, ∃ i : Int, errslot_at i = some p ∧ -32 ≤ i ∧ i ≤ -1 ∧
      ∀ j : Int, errslot_at j = some p → j = i) ∧
    errslot_at 0 = none ∧
    (∀ i : Int, 0 < i → errslot_at i = none) ∧
    (∀ i : Int, i < -32 → errslot_at i = none) ∧
    errslot_at (-2147483648) = none := by
  refine ⟨?_, ?_, ?_, ?_, errslot_at_zero, ?_, ?_, ?_⟩
  · intro i
    constructor
    · rintro ⟨p, hp⟩
      rw [errslot_at_eq_some] at hp
      exact ⟨hp.1, hp.2.1⟩
    · intro h
      cases hx : errslot_at i with
      | none => rw [errslot_at_eq_none] at hx; exact absurd h hx
      | some p => exact ⟨p, rfl⟩
  · intro i p hp
    rw [errslot_at_eq_some] at hp
    exact hp.2.2
  · intro i j p hi hj
    rw [errslot_at_eq_some] at hi hj
    omega
  · intro p
    have hlt := position_lt p
    refine ⟨-((p : Nat) : Int) - 1, errslot_at_index p, by omega, by omega, ?_⟩
    intro j hj
    rw [errslot_at_eq_some] at hj
    omega
  · intro i hi
    rw [errslot_at_eq_none]; omega
  · intro i hi
    rw [errslot_at_eq_none]; omega
  · rw [errslot_at_eq_none]; omega

/-- C4, as the code has it: a released index still resolves.  For every pool
and every index `A` with a finite cause chain, `errslot_unref A` returns, and
afterwards `errslot_at` of `A` and of every index `B` on `A`'s chain still
returns the slot at position `-B - 1`, which is then all-zero. -/
theorem errslot_at_after_unref_is_zeroed_slot (pool : Pool) (A : Int) (chain : List Int)
    (hchain : cause_chain pool A chain = true) (fuel : Nat) (hfuel : chain.length < fuel) :
    ∃ pool1 freed, errslot_unref fuel pool A = some (pool1, freed) ∧
      ∀ B ∈ chain, ∃ p, errslot_at B = some p ∧ ((p : Nat) : Int) = -B - 1 ∧
        slot_at pool1 B = some empty := by
  refine ⟨_, _, errslot_unref_chain pool chain A fuel hchain hfuel, ?_⟩
  intro B hB
  obtain ⟨p, hp⟩ := cause_chain_valid pool chain A hchain B hB
  refine ⟨p, hp, (errslot_at_eq_some.mp hp).2.2, ?_⟩
  unfold slot_at
  rw [hp, Option.map_some', zeroed_apply, if_pos ⟨B, hB, hp⟩]

theorem errslot_at_after_unref_is_zeroed_slot_witness :
    cause_chain pool_outer_inner (-1) [-1, -2] = true ∧ [(-1 : Int), -2].length < 3 ∧
    ∃ pool1 freed, errslot_unref 3 pool_outer_inner (-1) = some (pool1, freed) ∧
      ∀ B ∈ [(-1 : Int), -2], ∃ p, errslot_at B = some p ∧ ((p : Nat) : Int) = -B - 1 ∧
        slot_at pool1 B = some empty :=
  ⟨by decide, by decide,
    errslot_at_after_unref_is_zeroed_slot pool_outer_inner (-1) [-1, -2] (by decide) 3 (by decide)⟩

/-- C4 as stated fails: in the pool holding "outer" (index -1) caused by
"inner" (index -2), both indices are live and the chain is acyclic, yet after
`errslot_unref (-1)` the lookups of -1 and of -2 both return a slot (the
zeroed one), not none. -/
theorem released_index_still_resolves :
    cause_chain pool_outer_inner (-1) [-1, -2] = true ∧
    (errslot_unref 3 pool_outer_inner (-1)).map
        (fun r => (slot_at r.1 (-1), slot_at r.1 (-2))) = some (some empty, some empty) ∧
    errslot_at (-1) ≠ none ∧ errslot_at (-2) ≠ none := by
  decide

/-- C5: one release at the head reclaims the whole chain.  For every pool and
every finite cause chain from `S0` (valid indices linked by `es_cause`, the
last cause being 0 or any other index that does not resolve),
`errslot_unref S0` returns and afterwards every field of every slot of the
chain is zero. -/
theorem errslot_unref_reclaims_chain (pool : Pool) (S0 : Int) (chain : List Int)
    (hchain : cause_chain pool S0 chain = true) (fuel : Nat) (hfuel : chain.length < fuel) :
    ∃ pool1 freed, errslot_unref fuel pool S0 = some (pool1, freed) ∧
      ∀ S ∈ chain, ∃ p, errslot_at S = some p ∧
        (pool1 p).es_domain = none ∧ (pool1 p).es_value = 0 ∧ (pool1 p).es_msg = none ∧
        (pool1 p).es_function = none ∧ (pool1 p).es_filename = none ∧
        (pool1 p).es_lineno = 0 ∧ (pool1 p).es_cause = 0 ∧ (pool1 p).es_data = 0 ∧
        pool1 p = empty := by
  refine ⟨_, _, errslot_unref_chain pool chain S0 fuel hchain hfuel, ?_⟩
  intro S hS
  obtain ⟨p, hp⟩ := cause_chain_valid pool chain S0 hchain S hS
  have hz : zeroed pool chain p = empty := by
    rw [zeroed_apply, if_pos ⟨S, hS, hp⟩]
  refine ⟨p, hp, ?_⟩
  rw [hz]
  exact ⟨rfl, rfl, rfl, rfl, rfl, rfl, rfl, rfl, rfl⟩

theorem errslot_unref_reclaims_chain_witness :
    cause_chain pool_with_data (-1) [-1, -3] = true ∧ [(-1 : Int), -3].length < 3 ∧
    ∃ pool1 freed, errslot_unref 3 pool_with_data (-1) = some (pool1, freed) ∧
      ∀ S ∈ [(-1 : Int), -3], ∃ p, errslot_at S = some p ∧
        (pool1 p).es_domain = none ∧ (pool1 p).es_value = 0 ∧ (pool1 p).es_msg = none ∧
        (pool1 p).es_function = none ∧ (pool1 p).es_filename = none ∧
        (pool1 p).es_lineno = 0 ∧ (pool1 p).es_cause = 0 ∧ (pool1 p).es_data = 0 ∧
        pool1 p = empty :=
  ⟨by decide, by decide,
    errslot_unref_reclaims_chain pool_with_data (-1) [-1, -3] (by decide) 3 (by decide)⟩

/-- C6: release is idempotent.  For every pool and every index with a finite
cause chain, `errslot_unref idx` returns, and a second `errslot_unref idx`
right after it returns too, leaves the pool exactly as the first call left it
and makes no `esd_free` call. -/
theorem errslot_unref_idempotent (pool : Pool) (idx : Int) (chain : List Int)
    (hchain : cause_chain pool idx chain = true) (fuel : Nat) (hfuel : chain.length < fuel)
    (fuel2 : Nat) (hfuel2 : 0 < fuel2) :
    ∃ pool1 freed, errslot_unref fuel pool idx = some (pool1, freed) ∧
      errslot_unref fuel2 pool1 idx = some (pool1, []) := by
  refine ⟨_, _, errslot_unref_chain pool chain idx fuel hchain hfuel, ?_⟩
  obtain ⟨f, rfl⟩ : ∃ f, fuel2 = f + 1 := ⟨fuel2 - 1, by omega⟩
  cases hat : errslot_at idx with
  | none => exact errslot_unref_none f _ idx hat
  | some p =>
    have hmem : idx ∈ chain := by
      cases chain with
      | nil => rw [cause_chain_nil] at hchain; rw [hchain] at hat; cases hat
      | cons a rest =>
        rw [cause_chain_cons] at hchain
        obtain ⟨_, _, rfl, _⟩ := hchain
        exact List.mem_cons_self _ _
    have hz : zeroed pool chain p = empty := by
      rw [zeroed_apply, if_pos ⟨idx, hmem, hat⟩]
    unfold errslot_unref
    simp only [hat, hz]
    have hupd : Function.update (zeroed pool chain) p empty = zeroed pool chain := by
      rw [← hz]; exact Function.update_eq_self p _
    simp [empty, free_attached] at hupd ⊢
    exact hupd

theorem errslot_unref_idempotent_witness :
    cause_chain pool_outer_inner (-1) [-1, -2] = true ∧ [(-1 : Int), -2].length < 5 ∧ 0 < 1 ∧
    ∃ pool1 freed, errslot_unref 5 pool_outer_inner (-1) = some (pool1, freed) ∧
      errslot_unref 1 pool1 (-1) = some (pool1, []) :=
  ⟨by decide, by decide, by decide,
    errslot_unref_idempotent pool_outer_inner (-1) [-1, -2] (by decide) 5 (by decide) 1
      (by decide)⟩

/-- C7: release order is self before cause.  For every finite cause chain
from `S0`, the `esd_free` calls made by `errslot_unref S0` are, in chain order,
those of the slots whose data, domain and release routine are all present (a
slot lacking one of them contributes no call); when every slot of the chain
has all three, the data passed are exactly `d_0, d_1, ..., d_n` in that order,
one call per slot, and no slot occurs twice on the chain. -/
theorem errslot_unref_frees_self_before_cause (pool : Pool) (S0 : Int) (chain : List Int)
    (hchain : cause_chain pool S0 chain = true) (fuel : Nat) (hfuel : chain.length < fuel) :
    ∃ pool1 freed, errslot_unref fuel pool S0 = some (pool1, freed) ∧
      freed = chain.filterMap (fun i => (slot_at pool i).bind owed) ∧
      chain.Nodup ∧
      ((∀ i ∈ chain, ∃ s d f, slot_at pool i = some s ∧ s.es_data ≠ 0 ∧
          s.es_domain = some d ∧ d.esd_free = some f) →
        freed.map (fun c => c.data) =
            chain.map (fun i => ((slot_at pool i).map (fun s => s.es_data)).getD 0) ∧
          freed.length = chain.length) := by
  refine ⟨_, _, errslot_unref_chain pool chain S0 fuel hchain hfuel,
    chain_freed_eq_filterMap pool chain, cause_chain_nodup pool chain S0 hchain, ?_⟩
  intro hall
  rw [chain_freed_eq_filterMap]
  have hmap := filterMap_all_owed pool chain hall
  refine ⟨hmap, ?_⟩
  have hlen := congrArg List.length hmap
  simpa using hlen

theorem errslot_unref_frees_self_before_cause_witness :
    cause_chain pool_with_data (-1) [-1, -3] = true ∧ [(-1 : Int), -3].length < 4 ∧
    (∀ i ∈ [(-1 : Int), -3], ∃ s d f, slot_at pool_with_data i = some s ∧ s.es_data ≠ 0 ∧
      s.es_domain = some d ∧ d.esd_free = some f) ∧
    ∃ pool1 freed, errslot_unref 4 pool_with_data (-1) = some (pool1, freed) ∧
      freed = [(-1 : Int), -3].filterMap (fun i => (slot_at pool_with_data i).bind owed) ∧
      [(-1 : Int), -3].Nodup ∧
      freed.map (fun c => c.data) =
        [(-1 : Int), -3].map
          (fun i => ((slot_at pool_with_data i).map (fun s => s.es_data)).getD 0) ∧
      freed.length = [(-1 : Int), -3].length :=
  have hall : ∀ i ∈ [(-1 : Int), -3], ∃ s d f, slot_at pool_with_data i = some s ∧
      s.es_data ≠ 0 ∧ s.es_domain = some d ∧ d.esd_free = some f := by
    intro i hi
    simp only [List.mem_cons, List.mem_singleton, List.not_mem_nil, or_false] at hi
    rcases hi with rfl | rfl
    · exact ⟨pool_with_data 0, { esd_free := some 7, esd_print := none }, 7,
        by decide, by decide, by decide, rfl⟩
    · exact ⟨pool_with_data 2, { esd_free := some 8, esd_print := none }, 8,
        by decide, by decide, by decide, rfl⟩
  ⟨by decide, by decide, hall,
    match errslot_unref_frees_self_before_cause pool_with_data (-1) [-1, -3] (by decide) 4
        (by decide) with
    | ⟨pool1, freed, h1, h2, h3, h4⟩ => ⟨pool1, freed, h1, h2, h3, (h4 hall).1, (h4 hall).2⟩⟩

/-- C8: for every pool and every index outside -32..-1 (0, positive, below
-32), `errslot_unref` returns at once: the pool is unchanged and no `esd_free`
call is made. -/
theorem errslot_unref_out_of_range_noop (pool : Pool) (i : Int) (hout : ¬ (-32 ≤ i ∧ i ≤ -1))
    (fuel : Nat) (hfuel : 0 < fuel) :
    errslot_unref fuel pool i = some (pool, []) := by
  obtain ⟨f, rfl⟩ : ∃ f, fuel = f + 1 := ⟨fuel - 1, by omega⟩
  exact errslot_unref_none f pool i (errslot_at_eq_none.mpr hout)

theorem errslot_unref_out_of_range_noop_witness :
    ¬ (-32 ≤ (-33 : Int) ∧ (-33 : Int) ≤ -1) ∧ 0 < 1 ∧
    errslot_unref 1 pool_with_data (-33) = some (pool_with_data, []) :=
  ⟨by decide, by decide,
    errslot_unref_out_of_range_noop pool_with_data (-33) (by decide) 1 (by decide)⟩

/-- C9: `errslot_make` selects the first free slot.  On every pool with a free
slot it returns index `-(p + 1)` and a direct reference to position `p`, where
`p` is the smallest position whose slot is all-zero: the slot at `p` is zero
and every slot below `p` is not. -/
theorem errslot_make_selects_first_free (pool : Pool) (domain : Option errslot_domain)
    (hfree : ∃ p, pool p = empty) :
    ∃ (p : Fin ERRSLOT_MAX) (pool1 : Pool) (info : errslot_info),
      errslot_make pool domain = some (pool1, info) ∧
      info.es_index = -(((p : Nat) : Int) + 1) ∧ info.es_ptr = p ∧
      pool p = empty ∧ (∀ q : Fin ERRSLOT_MAX, q < p → pool q ≠ empty) ∧
      (∀ q : Fin ERRSLOT_MAX, pool q = empty → p ≤ q) := by
  obtain ⟨p, hp, hmin⟩ := exists_first_free pool hfree
  refine ⟨p, _, _, errslot_make_first_free pool domain p hp hmin, ?_, rfl, hp, hmin, ?_⟩
  · show -((p : Nat) : Int) - 1 = -(((p : Nat) : Int) + 1)
    omega
  · intro q hq
    by_contra hlt
    exact hmin q (not_le.mp hlt) hq

theorem errslot_make_selects_first_free_witness :
    (∃ p, pool_with_data p = empty) ∧
    ∃ (p : Fin ERRSLOT_MAX) (pool1 : Pool) (info : errslot_info),
      errslot_make pool_with_data (some errslot_domain_errno) = some (pool1, info) ∧
      info.es_index = -(((p : Nat) : Int) + 1) ∧ info.es_ptr = p ∧
      pool_with_data p = empty ∧ (∀ q : Fin ERRSLOT_MAX, q < p → pool_with_data q ≠ empty) ∧
      (∀ q : Fin ERRSLOT_MAX, pool_with_data q = empty → p ≤ q) :=
  ⟨⟨1, by decide⟩,
    errslot_make_selects_first_free pool_with_data (some errslot_domain_errno) ⟨1, by decide⟩⟩

/-- C10: a released position is eligible for reuse.  When all 32 slots are
live and `idx` is a valid index whose slot has cause 0, `errslot_unref idx`
followed by `errslot_make` returns exactly `idx`; and for every valid `idx`
with a finite cause chain, the `errslot_make` after `errslot_unref idx`
succeeds at a position less than or equal to the position of `idx`. -/
theorem errslot_make_reuses_released (pool : Pool) (idx : Int) (p : Fin ERRSLOT_MAX)
    (hat : errslot_at idx = some p) (domain : Option errslot_domain) :
    ((∀ q, pool q ≠ empty) → (pool p).es_cause = 0 → ∀ fuel : Nat, 0 < fuel →
      ∃ pool1 freed pool2 info, errslot_unref fuel pool idx = some (pool1, freed) ∧
        errslot_make pool1 domain = some (pool2, info) ∧ info.es_index = idx ∧
        info.es_ptr = p) ∧
    (∀ (chain : List Int) (fuel : Nat), cause_chain pool idx chain = true →
      chain.length < fuel →
      ∃ pool1 freed pool2 info, errslot_unref fuel pool idx = some (pool1, freed) ∧
        errslot_make pool1 domain = some (pool2, info) ∧ info.es_ptr ≤ p ∧
        idx ≤ info.es_index ∧ info.es_index ≤ -1) := by
  have hidx := errslot_at_eq_some.mp hat
  constructor
  · intro hlive hcause fuel hfuel
    obtain ⟨f, rfl⟩ : ∃ f, fuel = f + 1 := ⟨fuel - 1, by omega⟩
    have hun : errslot_unref (f + 1) pool idx =
        some (Function.update pool p empty, free_attached (pool p)) := by
      unfold errslot_unref
      simp [hat, hcause]
    have hfree : Function.update pool p empty p = empty := Function.update_same p _ _
    have hmin : ∀ q : Fin ERRSLOT_MAX, q < p → Function.update pool p empty q ≠ empty := by
      intro q hq
      rw [Function.update_noteq (ne_of_lt hq)]
      exact hlive q
    refine ⟨_, _, _, _, hun, errslot_make_first_free _ domain p hfree hmin, ?_, rfl⟩
    show -((p : Nat) : Int) - 1 = idx
    omega
  · intro chain fuel hchain hfuel
    have hmem : idx ∈ chain := by
      cases chain with
      | nil => rw [cause_chain_nil] at hchain; rw [hchain] at hat; cases hat
      | cons a rest =>
        rw [cause_chain_cons] at hchain
        obtain ⟨_, _, rfl, _⟩ := hchain
        exact List.mem_cons_self _ _
    have hz : zeroed pool chain p = empty := by
      rw [zeroed_apply, if_pos ⟨idx, hmem, hat⟩]
    obtain ⟨q, hq, hqmin⟩ := exists_first_free (zeroed pool chain) ⟨p, hz⟩
    have hqp : q ≤ p := by
      by_contra hlt
      exact hqmin p (not_le.mp hlt) hz
    have hqp2 : (q : Nat) ≤ (p : Nat) := hqp
    refine ⟨_, _, _, _, errslot_unref_chain pool chain idx fuel hchain hfuel,
      errslot_make_first_free _ domain q hq hqmin, hqp, ?_, ?_⟩
    · show idx ≤ -((q : Nat) : Int) - 1
      omega
    · show -((q : Nat) : Int) - 1 ≤ -1
      omega

theorem errslot_make_reuses_released_witness :
    errslot_at (-5) = some 4 ∧ (∀ q, pool_full q ≠ empty) ∧ (pool_full 4).es_cause = 0 ∧
    (∃ pool1 freed pool2 info, errslot_unref 1 pool_full (-5) = some (pool1, freed) ∧
      errslot_make pool1 none = some (pool2, info) ∧ info.es_index = -5 ∧ info.es_ptr = 4) ∧
    cause_chain pool_full (-5) [-5] = true ∧
    (∃ pool1 freed pool2 info, errslot_unref 2 pool_full (-5) = some (pool1, freed) ∧
      errslot_make pool1 none = some (pool2, info) ∧ info.es_ptr ≤ 4 ∧
      -5 ≤ info.es_index ∧ info.es_index ≤ -1) :=
  have hlive : ∀ q, pool_full q ≠ empty := fun _ h => by
    have hd : some errslot_domain_plain = (none : Option errslot_domain) :=
      congrArg errslot.es_domain h
    cases hd
  ⟨by decide, hlive, by decide,
    (errslot_make_reuses_released pool_full (-5) 4 (by decide) none).1 hlive (by decide) 1
      (by decide),
    by decide,
    (errslot_make_reuses_released pool_full (-5) 4 (by decide) none).2 [-5] 2 (by decide)
      (by decide)⟩

/-- C11: on every pool with a free slot and for all arguments,
`errslot_make_inline` returns the index `errslot_make` would return for the
same domain, and the slot at that index then holds exactly the given value,
message, cause, function name, file name and line number, a null data pointer
and the given domain (the default domain for `NULL`).  `errslot_plain` and
`errslot_plain_cause` use the plain-message domain with value 0 (cause 0 for
`errslot_plain`), `errslot_errno` the OS-error domain with the ambient `errno`
as value and cause 0, `errslot_TODO` and `errslot_TODO_cause` the default
domain with value 0. -/
theorem errslot_make_inline_fills_slot (pool : Pool) (hfree : ∃ p, pool p = empty)
    (domain : Option errslot_domain) (value : Int) (msg : Option String) (cause : Int)
    (function filename : Option String) (lineno : Int) (fn file : String) (errno : Int) :
    (∃ pool1 info pool2, errslot_make pool domain = some (pool1, info) ∧
      errslot_make_inline pool domain value msg cause function filename lineno =
        some (pool2, info.es_index) ∧
      slot_at pool2 info.es_index =
        some { es_domain := some (match domain with
                 | none => errslot_domain_TODO
                 | some d => d),
               es_value := value, es_msg := msg, es_function := function,
               es_filename := filename, es_lineno := lineno, es_cause := cause,
               es_data := 0 }) ∧
    (∃ pool2 idx, errslot_plain pool msg fn file lineno = some (pool2, idx) ∧
      slot_at pool2 idx =
        some { es_domain := some errslot_domain_plain, es_value := 0, es_msg := msg,
               es_function := some fn, es_filename := some file, es_lineno := lineno,
               es_cause := 0, es_data := 0 }) ∧
    (∃ pool2 idx, errslot_plain_cause pool msg cause fn file lineno = some (pool2, idx) ∧
      slot_at pool2 idx =
        some { es_domain := some errslot_domain_plain, es_value := 0, es_msg := msg,
               es_function := some fn, es_filename := some file, es_lineno := lineno,
               es_cause := cause, es_data := 0 }) ∧
    (∃ pool2 idx, errslot_errno pool errno msg fn file lineno = some (pool2, idx) ∧
      slot_at pool2 idx =
        some { es_domain := some errslot_domain_errno, es_value := errno, es_msg := msg,
               es_function := some fn, es_filename := some file, es_lineno := lineno,
               es_cause := 0, es_data := 0 }) ∧
    (∃ pool2 idx, errslot_TODO pool msg fn file lineno = some (pool2, idx) ∧
      slot_at pool2 idx =
        some { es_domain := some errslot_domain_TODO, es_value := 0, es_msg := msg,
               es_function := some fn, es_filename := some file, es_lineno := lineno,
               es_cause := 0, es_data := 0 }) ∧
    (∃ pool2 idx, errslot_TODO_cause pool msg cause fn file lineno = some (pool2, idx) ∧
      slot_at pool2 idx =
        some { es_domain := some errslot_domain_TODO, es_value := 0, es_msg := msg,
               es_function := some fn, es_filename := some file, es_lineno := lineno,
               es_cause := cause, es_data := 0 }) := by
  obtain ⟨p, hp, hmin⟩ := exists_first_free pool hfree
  have key : ∀ (d : Option errslot_domain) (v : Int) (m : Option String) (c : Int)
      (f1 f2 : Option String) (l : Int),
      ∃ pool2, errslot_make_inline pool d v m c f1 f2 l =
          some (pool2, -((p : Nat) : Int) - 1) ∧
        slot_at pool2 (-((p : Nat) : Int) - 1) =
          some { es_domain := some (d.getD errslot_domain_TODO), es_value := v, es_msg := m,
                 es_function := f1, es_filename := f2, es_lineno := l, es_cause := c,
                 es_data := 0 } := by
    intro d v m c f1 f2 l
    simp only [errslot_make_inline, errslot_make_first_free pool d p hp hmin]
    refine ⟨_, rfl, ?_⟩
    simp only [slot_at, errslot_at_index p, Option.map_some', Function.update_same, hp]
    rfl
  refine ⟨?_, ?_, ?_, ?_, ?_, ?_⟩
  · obtain ⟨pool2, h1, h2⟩ := key domain value msg cause function filename lineno
    refine ⟨_, _, pool2, errslot_make_first_free pool domain p hp hmin, h1, ?_⟩
    cases domain <;> exact h2
  · obtain ⟨pool2, h1, h2⟩ := key (some errslot_domain_plain) 0 msg 0 (some fn) (some file) lineno
    exact ⟨pool2, _, h1, h2⟩
  · obtain ⟨pool2, h1, h2⟩ :=
      key (some errslot_domain_plain) 0 msg cause (some fn) (some file) lineno
    exact ⟨pool2, _, h1, h2⟩
  · obtain ⟨pool2, h1, h2⟩ :=
      key (some errslot_domain_errno) errno msg 0 (some fn) (some file) lineno
    exact ⟨pool2, _, h1, h2⟩
  · obtain ⟨pool2, h1, h2⟩ := key (some errslot_domain_TODO) 0 msg 0 (some fn) (some file) lineno
    exact ⟨pool2, _, h1, h2⟩
  · obtain ⟨pool2, h1, h2⟩ :=
      key (some errslot_domain_TODO) 0 msg cause (some fn) (some file) lineno
    exact ⟨pool2, _, h1, h2⟩

theorem errslot_make_inline_fills_slot_witness :
    (∃ p, pool_bad_flag p = empty) ∧
    ∃ pool2 idx, errslot_errno pool_bad_flag 2 (some "mq_open failed") "cmd_open" "mq.c" 128 =
        some (pool2, idx) ∧
      slot_at pool2 idx =
        some { es_domain := some errslot_domain_errno, es_value := 2,
               es_msg := some "mq_open failed", es_function := some "cmd_open",
               es_filename := some "mq.c", es_lineno := 128, es_cause := 0, es_data := 0 } :=
  ⟨⟨1, by decide⟩,
    (errslot_make_inline_fills_slot pool_bad_flag ⟨1, by decide⟩ none 0
      (some "mq_open failed") 0 none none 128 "cmd_open" "mq.c" 2).2.2.2.1⟩

/-- C12: `errslot_print` on an index that does not resolve (0, positive, below
-32) returns 0 and writes nothing to any stream; on an index that resolves
its result and writes are exactly those of the print function of the slot's
domain called on that slot with depth 0 (and 0 with no write when the slot has
no domain or the domain no print function). -/
theorem errslot_print_delegates (H : host) (pool : Pool) (f : FILE) (idx : Int) (fuel : Nat) :
    (¬ (-32 ≤ idx ∧ idx ≤ -1) → errslot_print (fuel + 1) H pool f idx = some ([], 0)) ∧
    (∀ (p : Fin ERRSLOT_MAX) (d : errslot_domain) (fn : print_fn),
      errslot_at idx = some p → (pool p).es_domain = some d → d.esd_print = some fn →
      errslot_print (fuel + 1) H pool f idx =
        esd_print_call H pool (errslot_print_depth H pool f fuel) f fn (pool p) 0) ∧
    (∀ p : Fin ERRSLOT_MAX, errslot_at idx = some p →
      ((pool p).es_domain = none ∨ ∃ d, (pool p).es_domain = some d ∧ d.esd_print = none) →
      errslot_print (fuel + 1) H pool f idx = some ([], 0)) := by
  refine ⟨?_, ?_, ?_⟩
  · intro hout
    simp only [errslot_print, errslot_print_depth, errslot_at_eq_none.mpr hout]
  · intro p d fn hat hd hfn
    simp only [errslot_print, errslot_print_depth, hat, hd, hfn]
  · intro p hat h
    rcases h with h | ⟨d, hd, hfn⟩
    · simp only [errslot_print, errslot_print_depth, hat, h]
    · simp only [errslot_print, errslot_print_depth, hat, hd, hfn]

theorem errslot_print_delegates_witness :
    ¬ (-32 ≤ (0 : Int) ∧ (0 : Int) ≤ -1) ∧
    errslot_print (0 + 1) host_glibc pool_bad_flag stdout 0 = some ([], 0) ∧
    errslot_at (-1) = some 0 ∧ (pool_bad_flag 0).es_domain = some errslot_domain_plain ∧
    errslot_domain_plain.esd_print = some print_fn.plain ∧
    errslot_print (0 + 1) host_glibc pool_bad_flag stdout (-1) =
      esd_print_call host_glibc pool_bad_flag
        (errslot_print_depth host_glibc pool_bad_flag stdout 0) stdout print_fn.plain
        (pool_bad_flag 0) 0 :=
  ⟨by decide,
    (errslot_print_delegates host_glibc pool_bad_flag stdout 0 0).1 (by decide),
    by decide, by decide, rfl,
    (errslot_print_delegates host_glibc pool_bad_flag stdout (-1) 0).2.1 0
      errslot_domain_plain print_fn.plain (by decide) (by decide) rfl⟩

/-- C13: for every chain `S0 -> ... -> Sn` of plain-message slots that ends
with cause 0, `errslot_print f S0` returns and writes to `f` exactly
`m0: m1: ...: mn` followed by one line break (an absent message shown as
`???`), and writes to no other stream.  So "bad flag" without cause prints
`bad flag\n` and "outer" caused by "inner" prints `outer: inner\n`. -/
theorem errslot_print_plain_chain_on_one_line (H : host) (pool : Pool) (f : FILE) (S0 : Int)
    (chain : List Int) (hchain : cause_chain_to_zero pool S0 chain = true) (hne : chain ≠ [])
    (hplain : ∀ i ∈ chain, ∃ p d, errslot_at i = some p ∧ (pool p).es_domain = some d ∧
      d.esd_print = some print_fn.plain)
    (fuel : Nat) (hfuel : chain.length ≤ fuel) :
    ∃ ws n, errslot_print fuel H pool f S0 = some (ws, n) ∧
      written f ws = chain_inline (chain.map (shown_msg pool)) ++ "\n" ∧
      ∀ w ∈ ws, w.stream = f := by
  obtain ⟨ws, n, h1, h2, h3⟩ :=
    errslot_print_depth_plain_chain H pool f chain S0 0 fuel hchain hne hplain hfuel
  exact ⟨ws, n, h1, by simpa using h2, h3⟩

theorem errslot_print_plain_chain_on_one_line_witness :
    (cause_chain_to_zero pool_bad_flag (-1) [-1] = true ∧
      ∃ ws n, errslot_print 1 host_glibc pool_bad_flag stdout (-1) = some (ws, n) ∧
        written stdout ws = "bad flag\n" ∧ ∀ w ∈ ws, w.stream = stdout) ∧
    (cause_chain_to_zero pool_outer_inner (-1) [-1, -2] = true ∧
      ∃ ws n, errslot_print 2 host_glibc pool_outer_inner stdout (-1) = some (ws, n) ∧
        written stdout ws = "outer: inner\n" ∧ ∀ w ∈ ws, w.stream = stdout) :=
  ⟨⟨by decide,
    match errslot_print_plain_chain_on_one_line host_glibc pool_bad_flag stdout (-1) [-1]
        (by decide) (by decide)
        (fun i hi => ⟨0, errslot_domain_plain, by
          simp only [List.mem_singleton] at hi
          subst hi
          decide⟩)
        1 (by decide) with
    | ⟨ws, n, h1, h2, h3⟩ => ⟨ws, n, h1, h2.trans (by decide), h3⟩⟩,
   ⟨by decide,
    match errslot_print_plain_chain_on_one_line host_glibc pool_outer_inner stdout (-1) [-1, -2]
        (by decide) (by decide)
        (fun i hi => by
          simp only [List.mem_cons, List.mem_singleton, List.not_mem_nil, or_false] at hi
          rcases hi with rfl | rfl
          · exact ⟨0, errslot_domain_plain, by decide⟩
          · exact ⟨1, errslot_domain_plain, by decide⟩)
        2 (by decide) with
    | ⟨ws, n, h1, h2, h3⟩ => ⟨ws, n, h1, h2.trans (by decide), h3⟩⟩⟩

/-- C14, as the code has it: for every OS-error slot with value `v`,
`errslot_print` of a slot without cause writes to `f` exactly
`msg: strerror(v) (v)` and a line break when a message is present,
`strerror(v) (v)` and a line break when it is absent, and nothing elsewhere.
With a cause, when the cause chain ends with cause 0 and every slot on it is
an OS-error or plain-message slot, the heads of the chain follow one another
after `: ` on the same line, the result is produced for every budget that
covers the chain, nothing goes to another stream, and the single line break
is written last and only at depth 0. -/
theorem errslot_print_errno_chain_on_one_line (H : host) (pool : Pool) (f : FILE) (idx : Int)
    (p : Fin ERRSLOT_MAX) (d : errslot_domain) (hat : errslot_at idx = some p)
    (hd : (pool p).es_domain = some d) (hfn : d.esd_print = some print_fn.errno) :
    inline_head H pool idx = errno_head H (pool p) ∧
    ((pool p).es_cause = 0 → ∀ fuel : Nat,
      ∃ ws n, errslot_print (fuel + 1) H pool f idx = some (ws, n) ∧
        written f ws = (match (pool p).es_msg with
          | some msg => msg ++ ": " ++ H.strerror (pool p).es_value ++ " (" ++
              fmt_d (pool p).es_value ++ ")" ++ "\n"
          | none => H.strerror (pool p).es_value ++ " (" ++
              fmt_d (pool p).es_value ++ ")" ++ "\n") ∧
        ∀ w ∈ ws, w.stream = f) ∧
    (∀ (chain : List Int) (fuel : Nat), cause_chain_to_zero pool idx chain = true →
      (∀ i ∈ chain, ∃ q e, errslot_at i = some q ∧ (pool q).es_domain = some e ∧
        (e.esd_print = some print_fn.errno ∨ e.esd_print = some print_fn.plain)) →
      chain.length ≤ fuel →
      (∃ ws n, errslot_print fuel H pool f idx = some (ws, n) ∧
        written f ws = chain_inline (chain.map (inline_head H pool)) ++ "\n" ∧
        ∀ w ∈ ws, w.stream = f) ∧
      (∀ depth : Nat, depth ≠ 0 →
        ∃ ws n, errslot_print_depth H pool f fuel idx depth = some (ws, n) ∧
          written f ws = chain_inline (chain.map (inline_head H pool)) ∧
          ∀ w ∈ ws, w.stream = f)) := by
  refine ⟨?_, ?_, ?_⟩
  · simp only [inline_head, slot_at, hat, Option.map_some', hd, hfn]
  · intro hc fuel
    obtain ⟨ws, n, h1, h2, h3⟩ :=
      errslot_print_errno_no_cause H (errslot_print_depth H pool f fuel) f (pool p) 0 hc
    refine ⟨ws, n, ?_, ?_, h3⟩
    · rw [errslot_print, errslot_print_depth_errno H pool f fuel idx 0 p d hat hd hfn]
      exact h1
    · rw [h2]
      unfold errno_head
      cases (pool p).es_msg <;> simp
  · intro chain fuel hchain hinline hfuel
    have hne : chain ≠ [] := by
      intro he
      rw [he, cause_chain_to_zero_nil] at hchain
      rw [hchain, errslot_at_zero] at hat
      cases hat
    constructor
    · obtain ⟨ws, n, h1, h2, h3⟩ :=
        errslot_print_depth_inline_chain H pool f chain idx 0 fuel hchain hne hinline hfuel
      exact ⟨ws, n, h1, by simpa using h2, h3⟩
    · intro depth hdepth
      obtain ⟨ws, n, h1, h2, h3⟩ :=
        errslot_print_depth_inline_chain H pool f chain idx depth fuel hchain hne hinline hfuel
      exact ⟨ws, n, h1, by simpa [hdepth] using h2, h3⟩

theorem errslot_print_errno_chain_on_one_line_witness :
    (errslot_at (-1) = some 0 ∧ (pool_open_failed 0).es_domain = some errslot_domain_errno ∧
      errslot_domain_errno.esd_print = some print_fn.errno ∧
      (pool_open_failed 0).es_cause = 0 ∧
      ∃ ws n, errslot_print (0 + 1) host_glibc pool_open_failed stdout (-1) = some (ws, n) ∧
        written stdout ws = "open failed: No such file or directory (2)\n" ∧
        ∀ w ∈ ws, w.stream = stdout) ∧
    (cause_chain_to_zero pool_errno_plain_cause (-1) [-1, -2] = true ∧
      (∀ i ∈ [(-1 : Int), -2], ∃ q e, errslot_at i = some q ∧
        (pool_errno_plain_cause q).es_domain = some e ∧
        (e.esd_print = some print_fn.errno ∨ e.esd_print = some print_fn.plain)) ∧
      [(-1 : Int), -2].length ≤ 2 ∧
      ∃ ws n, errslot_print 2 host_glibc pool_errno_plain_cause stdout (-1) = some (ws, n) ∧
        written stdout ws = "open failed: No such file or directory (2): inner\n" ∧
        ∀ w ∈ ws, w.stream = stdout) :=
  have hinline : ∀ i ∈ [(-1 : Int), -2], ∃ q e, errslot_at i = some q ∧
      (pool_errno_plain_cause q).es_domain = some e ∧
      (e.esd_print = some print_fn.errno ∨ e.esd_print = some print_fn.plain) := by
    intro i hi
    simp only [List.mem_cons, List.mem_singleton, List.not_mem_nil, or_false] at hi
    rcases hi with rfl | rfl
    · exact ⟨0, errslot_domain_errno, by decide, by decide, Or.inl rfl⟩
    · exact ⟨1, errslot_domain_plain, by decide, by decide, Or.inr rfl⟩
  ⟨⟨by decide, by decide, rfl, by decide,
    match (errslot_print_errno_chain_on_one_line host_glibc pool_open_failed stdout (-1) 0
        errslot_domain_errno (by decide) (by decide) rfl).2.1 (by decide) 0 with
    | ⟨ws, n, h1, h2, h3⟩ => ⟨ws, n, h1, h2.trans (by decide), h3⟩⟩,
   ⟨by decide, hinline, by decide,
    match ((errslot_print_errno_chain_on_one_line host_glibc pool_errno_plain_cause stdout
        (-1) 0 errslot_domain_errno (by decide) (by decide) rfl).2.2 [-1, -2] 2 (by decide)
        hinline (by decide)).1 with
    | ⟨ws, n, h1, h2, h3⟩ => ⟨ws, n, h1, h2.trans (by decide), h3⟩⟩⟩

/-- C14 as stated fails when the cause is a default-domain slot: printing the
OS error "open failed" (code 2) whose cause is the default-domain error
"inner" writes to `stdout` the text
`open failed: No such file or directory (2): Message: inner`, a line break,
and a second line break: the rendering of the cause brings a line break of its
own, so the line break of the OS-error slot is not the only one. -/
theorem errno_with_default_cause_prints_two_line_breaks :
    (pool_errno_todo_cause 0).es_domain = some errslot_domain_errno ∧
    (pool_errno_todo_cause 0).es_cause = -2 ∧
    (errslot_print 2 host_glibc pool_errno_todo_cause stdout (-1)).map
        (fun r => written stdout r.1) =
      some "open failed: No such file or directory (2): Message: inner\n\n" := by
  decide

/-- C15 fails on the code for a stream other than `stderr`: printing the
default-domain error "todo" (no location fields) to `stdout` puts the header
and the line `Message: todo` on `stdout` without the two spaces of
indentation, which `errslot_indent` writes to `stderr` instead.  Printed to
`stderr` the same error gives the header followed by `  Message: todo`. -/
theorem errslot_print_TODO_indents_on_stderr :
    (errslot_print 1 host_glibc pool_todo stdout (-1)).map
        (fun r => (written stdout r.1, written stderr r.1)) =
      some ("An error had occured:\nMessage: todo\n", "  ") ∧
    (errslot_print 1 host_glibc pool_todo stderr (-1)).map (fun r => written stderr r.1) =
      some "An error had occured:\n  Message: todo\n" := by
  decide

/-- C16 fails on the code: printing the plain-message error "bad flag" (no
cause) writes the 9 characters of `bad flag\n`, but the value returned is the
sum of what the two `fputs` calls return, 2 with glibc, not 9. -/
theorem errslot_print_returns_fputs_sum :
    (errslot_print 1 host_glibc pool_bad_flag stdout (-1)).map
        (fun r => (written stdout r.1, characters r.1, r.2)) =
      some ("bad flag\n", 9, 2) := by
  decide

/-- For every host the value `errslot_print` returns for "bad flag" is the sum
of what `fputs` returns for the message and for the line break. -/
theorem errslot_print_bad_flag_any_host (H : host) :
    errslot_print 1 H pool_bad_flag stdout (-1) =
      some ([{ stream := stdout, text := "bad flag" }, { stream := stdout, text := "\n" }],
        0 + H.fputs_result "bad flag" + H.fputs_result "\n") := by
  have hat : errslot_at (-1) = some 0 := by decide
  have hd : (pool_bad_flag 0).es_domain = some errslot_domain_plain := by decide
  have hc : (pool_bad_flag 0).es_cause = 0 := by decide
  have hm : (pool_bad_flag 0).es_msg = some "bad flag" := by decide
  rw [errslot_print, errslot_print_depth_plain H pool_bad_flag stdout 0 (-1) 0 0
    errslot_domain_plain hat hd rfl, errslot_print_plain_no_cause H _ stdout _ 0 hc, hm]
  rfl

/-- C17: printing is read-only and deterministic.  For every pool and every
index with a finite cause chain, a call of `errslot_print`, run on the pool,
returns and leaves the pool as it was, and a second call right after it (same
host) returns the same count and writes the same bytes, whatever budgets above
the chain length the two calls are given.  Print functions of domains defined
outside the repository are supposed to leave the pool alone. -/
theorem errslot_print_read_only_and_repeatable (H : host)
    (F : Nat → Pool → FILE → Fin ERRSLOT_MAX → Nat → Pool) (pool : Pool) (f : FILE)
    (idx : Int) (chain : List Int)
    (hF : ∀ addr pl s depth, F addr pl f s depth = pl)
    (hchain : cause_chain pool idx chain = true)
    (fuel1 fuel2 : Nat) (h1 : chain.length < fuel1) (h2 : chain.length < fuel2) :
    ∃ pool1 ws n, errslot_print_run fuel1 H F pool f idx = some (pool1, (ws, n)) ∧
      pool1 = pool ∧
      errslot_print_run fuel2 H F pool1 f idx = some (pool1, (ws, n)) ∧
      errslot_print fuel1 H pool f idx = some (ws, n) := by
  obtain ⟨⟨ws, n⟩, hr⟩ := errslot_print_depth_result H pool f chain idx 0 hchain
  refine ⟨pool, ws, n, ?_, rfl, ?_, hr fuel1 h1⟩
  · rw [errslot_print_run, errslot_print_depth_run_eq H F f hF fuel1 pool idx 0, hr fuel1 h1]
    rfl
  · rw [errslot_print_run, errslot_print_depth_run_eq H F f hF fuel2 pool idx 0, hr fuel2 h2]
    rfl

theorem errslot_print_read_only_and_repeatable_witness :
    (∀ (addr : Nat) (pl : Pool) (s : Fin ERRSLOT_MAX) (depth : Nat),
      (fun (_ : Nat) (q : Pool) (_ : FILE) (_ : Fin ERRSLOT_MAX) (_ : Nat) => q)
        addr pl stderr s depth = pl) ∧
    cause_chain pool_three_domains (-1) [-1, -2, -3] = true ∧
    [(-1 : Int), -2, -3].length < 4 ∧ [(-1 : Int), -2, -3].length < 7 ∧
    ∃ pool1 ws n,
      errslot_print_run 4 host_glibc (fun _ q _ _ _ => q) pool_three_domains stderr (-1) =
        some (pool1, (ws, n)) ∧
      pool1 = pool_three_domains ∧
      errslot_print_run 7 host_glibc (fun _ q _ _ _ => q) pool1 stderr (-1) =
        some (pool1, (ws, n)) ∧
      errslot_print 4 host_glibc pool_three_domains stderr (-1) = some (ws, n) :=
  ⟨fun _ _ _ _ => rfl, by decide, by decide, by decide,
    errslot_print_read_only_and_repeatable host_glibc (fun _ q _ _ _ => q) pool_three_domains
      stderr (-1) [-1, -2, -3] (fun _ _ _ _ => rfl) (by decide) 4 7 (by decide) (by decide)⟩

/-- C18, as the code has it: the cause handed to a constructor must be 0 or
the index at the head of a chain of slots in use.  For every pool state
produced from the empty pool by `errslot_make`, the convenience constructors
called with such a cause, and `errslot_unref`, and for every index: the cause
links from the index form a chain of at most 32 slots, which ends at index 0
when the index resolves, and `errslot_unref` and `errslot_print` return, with
one result each, for every budget above 32. -/
theorem reachable_release_and_print_terminate (H : host) (pool : Pool) (f : FILE)
    (hreach : reachable pool) (idx : Int) :
    (∃ chain, cause_chain pool idx chain = true ∧ chain.length ≤ 32 ∧
      ((-32 ≤ idx ∧ idx ≤ -1) → cause_chain_to_zero pool idx chain = true)) ∧
    (∃ r, ∀ fuel : Nat, 32 < fuel → errslot_unref fuel pool idx = some r) ∧
    (∃ r, ∀ fuel : Nat, 32 < fuel → errslot_print fuel H pool f idx = some r) := by
  obtain ⟨chain, hchain, hzero⟩ :=
    chains_end_at_zero_chain pool (reachable_chains_end_at_zero pool hreach) idx
  have hlen := cause_chain_length_le pool chain idx hchain
  refine ⟨⟨chain, hchain, hlen, hzero⟩, ⟨_, fun fuel hf =>
    errslot_unref_chain pool chain idx fuel hchain (by omega)⟩, ?_⟩
  obtain ⟨r, hr⟩ := errslot_print_depth_result H pool f chain idx 0 hchain
  exact ⟨r, fun fuel hf => hr fuel (by omega)⟩

theorem reachable_release_and_print_terminate_witness :
    reachable pool_inner_outer ∧
    (∃ chain, cause_chain pool_inner_outer (-2) chain = true ∧ chain.length ≤ 32 ∧
      ((-32 ≤ (-2 : Int) ∧ (-2 : Int) ≤ -1) →
        cause_chain_to_zero pool_inner_outer (-2) chain = true)) ∧
    (∃ r, ∀ fuel : Nat, 32 < fuel → errslot_unref fuel pool_inner_outer (-2) = some r) ∧
    (∃ r, ∀ fuel : Nat, 32 < fuel →
      errslot_print fuel host_glibc pool_inner_outer stderr (-2) = some r) :=
  have h1 : reachable (Function.update errslot_main_init 0 slot_inner) :=
    reachable.make_inline errslot_main_init (some errslot_domain_plain) 0 (some "inner") 0
      none none 0 _ (-1) reachable.init ⟨[], by decide, by decide⟩
      (by
        rw [errslot_make_inline_first_free errslot_main_init (some errslot_domain_plain) 0
          (some "inner") 0 none none 0 0 rfl (fun q hq => absurd hq (Fin.not_lt_zero q))]
        rfl)
  have h2 : reachable pool_inner_outer :=
    reachable.make_inline (Function.update errslot_main_init 0 slot_inner)
      (some errslot_domain_plain) 0 (some "outer") (-1) none none 0 _ (-2) h1
      ⟨[-1], by decide, by decide⟩
      (by
        rw [errslot_make_inline_first_free (Function.update errslot_main_init 0 slot_inner)
          (some errslot_domain_plain) 0 (some "outer") (-1) none none 0 1 (by decide)
          (fun q hq => by
            have hq0 : q = 0 := by
              apply Fin.ext
              have : (q : Nat) < 1 := hq
              show (q : Nat) = 0
              omega
            subst hq0
            decide)]
        rfl)
  ⟨h2, reachable_release_and_print_terminate host_glibc pool_inner_outer stderr h2 (-2)⟩

/-- C18 as stated fails: from the empty pool the single call
`errslot_plain_cause("loop", -1)` yields a slot at index -1 whose cause is -1;
in that state neither `errslot_unref (-1)` nor `errslot_print (-1)` returns
for any budget, and no chain from -1 ends at index 0. -/
theorem caller_supplied_cause_can_cycle :
    errslot_plain_cause errslot_main_init (some "loop") (-1) "main" "mq.c" 1 =
      some (pool_self_cause, -1) ∧
    ¬ (∃ fuel, (errslot_unref fuel pool_self_cause (-1)).isSome = true) ∧
    ¬ (∃ fuel, (errslot_print fuel host_glibc pool_self_cause stderr (-1)).isSome = true) ∧
    ¬ (∃ chain, cause_chain_to_zero pool_self_cause (-1) chain = true) := by
  have hunref : ¬ (∃ fuel, (errslot_unref fuel pool_self_cause (-1)).isSome = true) := by
    rintro ⟨fuel, h⟩
    rw [errslot_unref_self_cause fuel] at h
    cases h
  refine ⟨?_, hunref, ?_, ?_⟩
  · have hmake := errslot_make_first_free errslot_main_init (some errslot_domain_plain) 0 rfl
      (fun q hq => absurd hq (Fin.not_lt_zero q))
    simp only [errslot_plain_cause, errslot_make_inline, hmake, Option.some.injEq,
      Prod.mk.injEq]
    refine ⟨?_, by decide⟩
    funext q
    by_cases hq : q = 0
    · subst hq
      simp [pool_self_cause, errslot_main_init, empty]
    · simp [pool_self_cause, errslot_main_init, hq, Function.update_noteq hq]
  · rintro ⟨fuel, h⟩
    rw [errslot_print, errslot_print_depth_self_cause host_glibc stderr fuel 0] at h
    cases h
  · rintro ⟨chain, h⟩
    apply hunref
    refine ⟨chain.length + 1, ?_⟩
    rw [errslot_unref_chain pool_self_cause chain (-1) (chain.length + 1)
      (cause_chain_of_to_zero pool_self_cause chain (-1) h) (Nat.lt_succ_self _)]
    rfl

/-- C20: frame of the pool operations.  A successful `errslot_make` changes
only the domain field of the slot it selects: every other slot and every other
field of that slot is as before.  `errslot_unref idx` on a finite cause chain
leaves every slot that is not on the chain as it was. -/
theorem pool_operations_frame (pool : Pool) :
    (∀ (domain : Option errslot_domain) (pool1 : Pool) (info : errslot_info),
      errslot_make pool domain = some (pool1, info) →
      (∀ q : Fin ERRSLOT_MAX, q ≠ info.es_ptr → pool1 q = pool q) ∧
      (pool1 info.es_ptr).es_value = (pool info.es_ptr).es_value ∧
      (pool1 info.es_ptr).es_msg = (pool info.es_ptr).es_msg ∧
      (pool1 info.es_ptr).es_function = (pool info.es_ptr).es_function ∧
      (pool1 info.es_ptr).es_filename = (pool info.es_ptr).es_filename ∧
      (pool1 info.es_ptr).es_lineno = (pool info.es_ptr).es_lineno ∧
      (pool1 info.es_ptr).es_cause = (pool info.es_ptr).es_cause ∧
      (pool1 info.es_ptr).es_data = (pool info.es_ptr).es_data) ∧
    (∀ (idx : Int) (chain : List Int) (fuel : Nat), cause_chain pool idx chain = true →
      chain.length < fuel →
      ∃ pool1 freed, errslot_unref fuel pool idx = some (pool1, freed) ∧
        ∀ q : Fin ERRSLOT_MAX, (∀ i ∈ chain, errslot_at i ≠ some q) → pool1 q = pool q) := by
  constructor
  · intro domain pool1 info hm
    obtain ⟨_, _, hpool, _⟩ := errslot_make_eq_some pool domain pool1 info hm
    subst hpool
    refine ⟨fun q hq => Function.update_noteq hq _ _, ?_⟩
    simp
  · intro idx chain fuel hchain hfuel
    refine ⟨_, _, errslot_unref_chain pool chain idx fuel hchain hfuel, ?_⟩
    intro q hq
    rw [zeroed_apply, if_neg]
    rintro ⟨i, hi, hiq⟩
    exact hq i hi hiq

theorem pool_operations_frame_witness :
    errslot_make pool_with_data none =
      some (Function.update pool_with_data 1
        { empty with es_domain := some errslot_domain_TODO }, { es_ptr := 1, es_index := -2 }) ∧
    (∀ q : Fin ERRSLOT_MAX, q ≠ 1 →
      (Function.update pool_with_data 1
        { empty with es_domain := some errslot_domain_TODO }) q = pool_with_data q) ∧
    cause_chain pool_with_data (-1) [-1, -3] = true ∧ [(-1 : Int), -3].length < 3 ∧
    ∃ pool1 freed, errslot_unref 3 pool_with_data (-1) = some (pool1, freed) ∧
      ∀ q : Fin ERRSLOT_MAX, (∀ i ∈ [(-1 : Int), -3], errslot_at i ≠ some q) →
        pool1 q = pool_with_data q :=
  have hm : errslot_make pool_with_data none =
      some (Function.update pool_with_data 1
        { empty with es_domain := some errslot_domain_TODO },
        { es_ptr := 1, es_index := -2 }) := by
    have h := errslot_make_first_free pool_with_data none 1 (by decide)
      (fun q hq => by
        have hq0 : q = 0 := by
          apply Fin.ext
          have : (q : Nat) < 1 := hq
          show (q : Nat) = 0
          omega
        subst hq0
        decide)
    rw [h]
    have he : pool_with_data 1 = empty := by decide
    simp only [he]
    rfl
  ⟨hm, ((pool_operations_frame pool_with_data).1 none _ _ hm).1, by decide, by decide,
    (pool_operations_frame pool_with_data).2 (-1) [-1, -3] 3 (by decide) (by decide)⟩

end Errslot

namespace Strlist

/-! ## `strlist_each` -/

theorem split_fields_ne_nil (sep : Char) (s : List Char) : split_fields sep s ≠ [] := by
  cases s with
  | nil => simp [split_fields]
  | cons x xs =>
    unfold split_fields
    by_cases hx : x = sep
    · simp [hx]
    · rw [if_neg hx]
      cases split_fields sep xs <;> simp

theorem strchr_some_spec (sep : Char) (hsep : sep ≠ '\x00') :
    ∀ (s : List Char) (k : Nat), strchr s sep = some k →
      k < s.length ∧ s.drop k = sep :: s.drop (k + 1) ∧
      split_fields sep s = s.take k :: split_fields sep (s.drop (k + 1)) := by
  intro s
  induction s with
  | nil =>
    intro k h
    simp [strchr, hsep] at h
  | cons x xs ih =>
    intro k h
    unfold strchr at h
    by_cases hx : x = sep
    · rw [if_pos hx] at h
      cases h
      subst hx
      simp [split_fields]
    · rw [if_neg hx] at h
      cases hk : strchr xs sep with
      | none => rw [hk] at h; cases h
      | some j =>
        rw [hk] at h
        cases h
        obtain ⟨h1, h2, h3⟩ := ih j hk
        refine ⟨by simp; omega, by simpa using h2, ?_⟩
        have hcons : split_fields sep (x :: xs) =
            (x :: List.take j xs) :: split_fields sep (List.drop (j + 1) xs) := by
          rw [split_fields, if_neg hx, h3]
        simpa using hcons

theorem strchr_none_spec (sep : Char) :
    ∀ s : List Char, strchr s sep = none → split_fields sep s = [s] := by
  intro s
  induction s with
  | nil => intro _; rfl
  | cons x xs ih =>
    intro h
    unfold strchr at h
    by_cases hx : x = sep
    · rw [if_pos hx] at h; cases h
    · rw [if_neg hx] at h
      cases hk : strchr xs sep with
      | none =>
        unfold split_fields
        rw [if_neg hx, ih hk]
      | some j => rw [hk] at h; cases h

theorem strchr_terminator :
    ∀ s : List Char, '\x00' ∉ s → strchr s '\x00' = some s.length := by
  intro s
  induction s with
  | nil => intro _; simp [strchr]
  | cons x xs ih =>
    intro h
    have hx : x ≠ '\x00' := fun e => h (by rw [e]; exact List.mem_cons_self _ _)
    have hxs : '\x00' ∉ xs := fun e => h (List.mem_cons_of_mem _ e)
    unfold strchr
    rw [if_neg hx, ih hxs]
    rfl

theorem visited_fields_nil (sep : Char) : visited_fields sep [] = [] := by
  simp [visited_fields, split_fields, drop_final_empty, with_starts]

theorem visited_fields_of_some (sep : Char) (hsep : sep ≠ '\x00') (s : List Char) (k : Nat)
    (h : strchr s sep = some k) :
    visited_fields sep s = (s, k) :: visited_fields sep (s.drop (k + 1)) := by
  obtain ⟨hk, _, hsplit⟩ := strchr_some_spec sep hsep s k h
  unfold visited_fields
  rw [hsplit]
  cases hrest : split_fields sep (s.drop (k + 1)) with
  | nil => exact absurd hrest (split_fields_ne_nil sep _)
  | cons g gs =>
    have hlen : (s.take k).length = k := by
      rw [List.length_take]; omega
    simp only [drop_final_empty, with_starts, hlen]

theorem visited_fields_of_none (sep : Char) (s : List Char) (hs : s ≠ [])
    (h : strchr s sep = none) : visited_fields sep s = [(s, s.length)] := by
  unfold visited_fields
  rw [strchr_none_spec sep s h]
  simp [drop_final_empty, with_starts, hs]

/-- The loop of `strlist_each` returns, for every budget above the length of
what is left of the string, the fold over the fields left. -/
theorem strlist_each_loop_eq_fold {σ : Type} (sep : Char) (hsep : sep ≠ '\x00')
    (func : σ → List Char → Nat → σ × Int) :
    ∀ (fuel : Nat) (p : σ) (curr : List Char), '\x00' ∉ curr → curr.length < fuel →
      strlist_each_loop sep func fuel p curr =
        some (fold_until_negative func p (visited_fields sep curr)) := by
  intro fuel
  induction fuel with
  | zero => intro p curr _ hf; exact absurd hf (Nat.not_lt_zero _)
  | succ fu ih =>
    intro p curr hnul hf
    cases curr with
    | nil =>
      rw [visited_fields_nil]
      rfl
    | cons c cs =>
      have hfu : 0 < fu := by simp at hf; omega
      unfold strlist_each_loop
      cases hk : strchr (c :: cs) sep with
      | some k =>
        obtain ⟨hlt, hdrop, _⟩ := strchr_some_spec sep hsep (c :: cs) k hk
        rw [visited_fields_of_some sep hsep (c :: cs) k hk]
        simp only [fold_until_negative, hdrop, if_true]
        by_cases hneg : (func p (c :: cs) k).2 < 0
        · rw [if_pos hneg, if_pos hneg]
        · rw [if_neg hneg, if_neg hneg]
          apply ih
          · intro hmem
            exact hnul (List.mem_of_mem_drop hmem)
          · have : ((c :: cs).drop (k + 1)).length = (c :: cs).length - (k + 1) :=
              List.length_drop _ _
            omega
      | none =>
        rw [visited_fields_of_none sep (c :: cs) (by simp) hk]
        simp only [strchr_terminator (c :: cs) hnul, fold_until_negative, List.drop_length,
          if_neg hsep]
        by_cases hneg : (func p (c :: cs) (c :: cs).length).2 < 0
        · rw [if_pos hneg, if_pos hneg]
        · rw [if_neg hneg, if_neg hneg]
          obtain ⟨fu1, rfl⟩ : ∃ fu1, fu = fu1 + 1 := ⟨fu - 1, by omega⟩
          rfl


/-- The first `item_len` characters at each visited start are the text of the
field: the visited fields are the split fields without a final empty one. -/
theorem visited_fields_text (sep : Char) (hsep : sep ≠ '\x00') :
    ∀ (n : Nat) (s : List Char), s.length < n →
      (visited_fields sep s).map (fun x => x.1.take x.2) =
        drop_final_empty (split_fields sep s) := by
  intro n
  induction n with
  | zero => intro s h; exact absurd h (Nat.not_lt_zero _)
  | succ n ih =>
    intro s hlen
    cases s with
    | nil => simp [visited_fields_nil, split_fields, drop_final_empty]
    | cons c cs =>
      cases hk : strchr (c :: cs) sep with
      | none =>
        rw [visited_fields_of_none sep (c :: cs) (by simp) hk, strchr_none_spec sep _ hk]
        simp [drop_final_empty]
      | some k =>
        obtain ⟨hlt, _, hsplit⟩ := strchr_some_spec sep hsep (c :: cs) k hk
        rw [visited_fields_of_some sep hsep (c :: cs) k hk, hsplit]
        have hrec := ih ((c :: cs).drop (k + 1)) (by
          have : ((c :: cs).drop (k + 1)).length = (c :: cs).length - (k + 1) :=
            List.length_drop _ _
          omega)
        cases hrest : split_fields sep ((c :: cs).drop (k + 1)) with
        | nil => exact absurd hrest (split_fields_ne_nil sep _)
        | cons g gs =>
          rw [hrest] at hrec
          simp only [List.map_cons, drop_final_empty, hrec]

/-- C22: for every NUL-terminated list and every separator other than NUL,
`strlist_each` returns (for every budget above the length of the list) and is
the left-to-right fold with early exit over the fields obtained by splitting
the list at each `sep`, a final empty field left out and leading and interior
empty fields kept: the callback is applied once per field, in order, to the
field's start and length, the first result below 0 ends the iteration and is
returned, and the result is 0 when there is none.  A `NULL` list visits
nothing and returns 0. -/
theorem strlist_each_folds_over_fields {σ : Type} (list : List Char) (sep : Char)
    (func : σ → List Char → Nat → σ × Int) (p : σ) (hsep : sep ≠ '\x00')
    (hnul : '\x00' ∉ list) (fuel : Nat) (hfuel : list.length < fuel) :
    strlist_each fuel (some list) sep func p =
      some (fold_until_negative func p (visited_fields sep list)) ∧
    (visited_fields sep list).map (fun x => x.1.take x.2) =
      drop_final_empty (split_fields sep list) ∧
    strlist_each fuel none sep func p = some (p, 0) :=
  ⟨strlist_each_loop_eq_fold sep hsep func fuel p list hnul hfuel,
    visited_fields_text sep hsep (list.length + 1) list (Nat.lt_succ_self _), rfl⟩

theorem strlist_each_folds_over_fields_witness :
    (',' : Char) ≠ '\x00' ∧ '\x00' ∉ ",a,,x,b,".toList ∧ ",a,,x,b,".toList.length < 9 ∧
    strlist_each 9 (some ",a,,x,b,".toList) ',' record_call [] =
      some ([([], 0), (['a'], 1), ([], 0), (['x'], 1)], -7) ∧
    (visited_fields ',' ",a,,x,b,".toList).map (fun x => x.1.take x.2) =
      [[], ['a'], [], ['x'], ['b']] ∧
    strlist_each 9 none ',' record_call [] = some ([], 0) :=
  ⟨by decide, by decide, by decide,
    (strlist_each_folds_over_fields ",a,,x,b,".toList ',' record_call [] (by decide)
      (by decide) 9 (by decide)).1.trans (by decide),
    (strlist_each_folds_over_fields ",a,,x,b,".toList ',' record_call [] (by decide)
      (by decide) 9 (by decide)).2.1.trans (by decide),
    (strlist_each_folds_over_fields ",a,,x,b,".toList ',' record_call [] (by decide)
      (by decide) 9 (by decide)).2.2⟩

end Strlist

namespace Mq

/-! ## `visit_open_flag` -/

theorem char_toNat_ne_zero (c : Char) (hc : c ≠ '\x00') : (c.toNat : Int) ≠ 0 := by
  intro h
  apply hc
  have h0 : c.toNat = 0 := by exact_mod_cast h
  have := Char.ofNat_toNat c
  rw [h0] at this
  exact this.symm

theorem char_toNat_sub_ne_zero (c1 c2 : Char) (hne : c1 ≠ c2) :
    (c1.toNat : Int) - (c2.toNat : Int) ≠ 0 := by
  intro h
  apply hne
  have h0 : c1.toNat = c2.toNat := by omega
  have e1 := Char.ofNat_toNat c1
  have e2 := Char.ofNat_toNat c2
  rw [← e1, ← e2, h0]

/-- `strncmp(s, lit, n) == 0` for an `n` within `s`: the first `n` characters
of `s` are a prefix of `lit`. -/
theorem strncmp_eq_zero_iff :
    ∀ (n : Nat) (s lit : List Char), '\x00' ∉ s → n ≤ s.length →
      (strncmp s lit n = 0 ↔ s.take n <+: lit) := by
  intro n
  induction n with
  | zero => intro s lit _ _; simp [strncmp]
  | succ n ih =>
    intro s lit hs hn
    cases s with
    | nil => simp at hn
    | cons c1 r1 =>
      have hc1 : c1 ≠ '\x00' := fun e => hs (by rw [e]; exact List.mem_cons_self _ _)
      have hr1 : '\x00' ∉ r1 := fun e => hs (List.mem_cons_of_mem _ e)
      cases lit with
      | nil =>
        simp only [strncmp, List.take_succ_cons, List.prefix_nil]
        constructor
        · intro h; exact absurd h (char_toNat_ne_zero c1 hc1)
        · intro h; cases h
      | cons c2 r2 =>
        simp only [strncmp, List.take_succ_cons, List.cons_prefix_cons]
        by_cases hc : c1 = c2
        · rw [if_pos hc]
          rw [ih r1 r2 hr1 (by simp at hn; omega)]
          simp [hc]
        · rw [if_neg hc]
          constructor
          · intro h; exact absurd h (char_toNat_sub_ne_zero c1 c2 hc)
          · intro h; exact absurd h.1 hc

/-- The index `errslot_plain` returns is negative. -/
theorem errslot_plain_negative (pool : Errslot.Pool) (msg : Option String)
    (function filename : String) (lineno : Int) (pool1 : Errslot.Pool) (idx : Int)
    (h : Errslot.errslot_plain pool msg function filename lineno = some (pool1, idx)) :
    idx < 0 := by
  simp only [Errslot.errslot_plain, Errslot.errslot_make_inline] at h
  cases hm : Errslot.errslot_make pool (some Errslot.errslot_domain_plain) with
  | none => simp [hm] at h
  | some r =>
    obtain ⟨pool2, info⟩ := r
    simp only [hm, Option.some.injEq, Prod.mk.injEq] at h
    obtain ⟨_, _, _, hidx⟩ := Errslot.errslot_make_eq_some pool _ pool2 info hm
    omega

/-- What `visit_open_flag` accepts: it returns 0 exactly when the first
`item_len` characters of the item are a prefix of one of the six flag names
(the whole name, a proper prefix of it, or nothing at all). -/
theorem visit_open_flag_returns_zero_iff (file : String) (pool : Errslot.Pool) (flag : Nat)
    (item : List Char) (item_len : Nat) (hs : '\x00' ∉ item) (hn : item_len ≤ item.length) :
    (∃ pool1 flag1, visit_open_flag file pool flag item item_len = some (pool1, flag1, 0)) ↔
      ∃ name ∈ flag_names, item.take item_len <+: name := by
  have e1 := strncmp_eq_zero_iff item_len item "read-only".toList hs hn
  have e2 := strncmp_eq_zero_iff item_len item "write-only".toList hs hn
  have e3 := strncmp_eq_zero_iff item_len item "read-write".toList hs hn
  have e4 := strncmp_eq_zero_iff item_len item "create".toList hs hn
  have e5 := strncmp_eq_zero_iff item_len item "excl".toList hs hn
  have e6 := strncmp_eq_zero_iff item_len item "nonblock".toList hs hn
  unfold visit_open_flag
  constructor
  · rintro ⟨pool1, flag1, h⟩
    by_cases h1 : strncmp item "read-only".toList item_len = 0
    · exact ⟨_, by simp [flag_names], e1.mp h1⟩
    by_cases h2 : strncmp item "write-only".toList item_len = 0
    · exact ⟨_, by simp [flag_names], e2.mp h2⟩
    by_cases h3 : strncmp item "read-write".toList item_len = 0
    · exact ⟨_, by simp [flag_names], e3.mp h3⟩
    by_cases h4 : strncmp item "create".toList item_len = 0
    · exact ⟨_, by simp [flag_names], e4.mp h4⟩
    by_cases h5 : strncmp item "excl".toList item_len = 0
    · exact ⟨_, by simp [flag_names], e5.mp h5⟩
    by_cases h6 : strncmp item "nonblock".toList item_len = 0
    · exact ⟨_, by simp [flag_names], e6.mp h6⟩
    rw [if_neg h1, if_neg h2, if_neg h3, if_neg h4, if_neg h5, if_neg h6] at h
    cases hp : Errslot.errslot_plain pool (some unknown_open_flag) "visit_open_flag" file 40 with
    | none => simp [hp] at h
    | some r =>
      obtain ⟨pool2, idx⟩ := r
      have hneg := errslot_plain_negative pool _ _ _ _ pool2 idx hp
      simp only [hp, Option.some.injEq, Prod.mk.injEq] at h
      omega
  · rintro ⟨name, hmem, hpre⟩
    simp only [flag_names, List.mem_cons, List.mem_singleton, List.not_mem_nil, or_false]
      at hmem
    rcases hmem with rfl | rfl | rfl | rfl | rfl | rfl
    · rw [if_pos (e1.mpr hpre)]
      exact ⟨_, _, rfl⟩
    · have c2 := e2.mpr hpre
      split_ifs <;> exact ⟨_, _, rfl⟩
    · have c3 := e3.mpr hpre
      split_ifs <;> exact ⟨_, _, rfl⟩
    · have c4 := e4.mpr hpre
      split_ifs <;> exact ⟨_, _, rfl⟩
    · have c5 := e5.mpr hpre
      split_ifs <;> exact ⟨_, _, rfl⟩
    · have c6 := e6.mpr hpre
      split_ifs <;> exact ⟨_, _, rfl⟩

/-- C21 fails on the code: `visit_open_flag` also accepts every proper prefix
of a flag name and the empty item.  With flag word 0 and the empty pool, the
items `r` and `read` return 0 as `read-only` does, `w` returns 0 and sets
`O_WRONLY`, `c` returns 0 and sets `O_CREAT`, and the empty item returns 0.
An item that is no prefix of a name (`bogus`, `read-onlyX`) returns the
negative index -1 and leaves the flag word as it was. -/
theorem visit_open_flag_accepts_prefixes :
    (visit_open_flag "mq.c" Errslot.errslot_main_init 0 "r".toList 1).map (fun r => r.2) =
      some (0, 0) ∧
    (visit_open_flag "mq.c" Errslot.errslot_main_init 0 "read".toList 4).map (fun r => r.2) =
      some (0, 0) ∧
    (visit_open_flag "mq.c" Errslot.errslot_main_init 0 "w,create".toList 1).map
      (fun r => r.2) = some (1, 0) ∧
    (visit_open_flag "mq.c" Errslot.errslot_main_init 0 "c".toList 1).map (fun r => r.2) =
      some (64, 0) ∧
    (visit_open_flag "mq.c" Errslot.errslot_main_init 0 ",create".toList 0).map
      (fun r => r.2) = some (0, 0) ∧
    (visit_open_flag "mq.c" Errslot.errslot_main_init 0 "read-only".toList 9).map
      (fun r => r.2) = some (0, 0) ∧
    (visit_open_flag "mq.c" Errslot.errslot_main_init 5 "bogus".toList 5).map (fun r => r.2) =
      some (5, -1) ∧
    (visit_open_flag "mq.c" Errslot.errslot_main_init 5 "read-onlyX".toList 10).map
      (fun r => r.2) = some (5, -1) := by
  decide

end Mq
